import Mathlib

/-!
Verification of the daphne DAP (Distributed Aggregation Protocol) core against
its specification.  The definitions below are shallow embeddings of the Rust
sources:

* `src/daphne/src/messages/mod.rs` — the version-parameterized wire codec;
* `src/daphne/src/vdaf/mod.rs` — the early-report pipeline and the Leader /
  Helper aggregation state machines;
* `src/daphne/src/roles/leader.rs` — the Leader upload handler;
* `src/daphne_worker/src/roles/aggregator.rs` and
  `src/daphne_worker/src/durable/reports_processed.rs` — the storage-side
  commit and replay-detection operations.

Machine bytes are modelled as natural numbers (each produced byte is `< 256`
by construction: every arithmetic byte is written `... % 256`); byte strings
are `List Nat`.  Fallible decoding returns `Except CodecError`; encoding
returns `Except EncodeFail` where the single failure constructor `panic`
models a Rust `panic!` / `expect` / `unreachable!`.  VDAF preparation and HPKE
decryption are cryptographic leaves out of scope of the spec core, so the
state-machine functions take them as explicit function parameters.
-/

set_option linter.unusedVariables false

namespace Daphne

/-- Protocol version (`DapVersion` in `src/daphne/src/lib.rs`, used throughout
the codec): `Draft02`, `Draft07`, or `Unknown`. -/
inductive DapVersion where
  | draft02
  | draft07
  | unknown
deriving DecidableEq, Repr

/-- Codec errors (`prio::codec::CodecError`): an IO error (end of input), the
`UnexpectedValue` error, or any other error. -/
inductive CodecError where
  | endOfInput
  | unexpectedValue
  | other
deriving DecidableEq, Repr

/-- Failure of an encoder.  The Rust encoders have no error channel; `panic`
models a Rust `panic!`, `expect` or `unreachable!` raised during encoding. -/
inductive EncodeFail where
  | panic
deriving DecidableEq, Repr

/-- Big-endian encoding of `n` on `w` bytes (truncating to `n % 256 ^ w`),
as produced by the fixed-width integer `Encode` impls of `prio::codec`. -/
def encBE : Nat → Nat → List Nat
  | 0, _ => []
  | w + 1, n => encBE w (n / 256) ++ [n % 256]

/-- Big-endian value of a byte string (fold of the fixed-width integer
`Decode` impls of `prio::codec`). -/
def beVal (bs : List Nat) : Nat :=
  bs.foldl (fun acc b => acc * 256 + b) 0

/-- `read_exact` on a byte stream: take `n` bytes, or fail with an IO error. -/
def readBytes (n : Nat) (bs : List Nat) : Except CodecError (List Nat × List Nat) :=
  if n ≤ bs.length then .ok (bs.take n, bs.drop n) else .error .endOfInput

/-- Decode a `w`-byte big-endian integer from the front of a byte stream. -/
def decBE (w : Nat) (bs : List Nat) : Except CodecError (Nat × List Nat) := do
  let (pre, rest) ← readBytes w bs
  pure (beVal pre, rest)

/-- `encode_u16_bytes` (`src/daphne/src/messages/mod.rs`): a 2-byte big-endian
length followed by the raw bytes; the length must fit in a `u16`
(otherwise the Rust encoder panics via `expect`). -/
def encodeU16Bytes (data : List Nat) : Except EncodeFail (List Nat) :=
  if data.length < 2 ^ 16 then .ok (encBE 2 data.length ++ data) else .error .panic

/-- `decode_u16_bytes` (`src/daphne/src/messages/mod.rs`). -/
def decodeU16Bytes (bs : List Nat) : Except CodecError (List Nat × List Nat) := do
  let (len, rest) ← decBE 2 bs
  readBytes len rest

/-- `encode_u32_bytes` (`src/daphne/src/messages/mod.rs`). -/
def encodeU32Bytes (data : List Nat) : Except EncodeFail (List Nat) :=
  if data.length < 2 ^ 32 then .ok (encBE 4 data.length ++ data) else .error .panic

/-- `decode_u32_bytes` (`src/daphne/src/messages/mod.rs`). -/
def decodeU32Bytes (bs : List Nat) : Except CodecError (List Nat × List Nat) := do
  let (len, rest) ← decBE 4 bs
  readBytes len rest

/-- Concatenation of the encodings of a list of items (the body written by
`prio::codec::encode_u16_items` / `encode_u32_items` after the length). -/
def encodeList {α : Type} (enc : α → Except EncodeFail (List Nat)) :
    List α → Except EncodeFail (List Nat)
  | [] => .ok []
  | x :: xs => do
    let bx ← enc x
    let bxs ← encodeList enc xs
    pure (bx ++ bxs)

/-- `encode_u16_items`: the total byte length of the concatenated encodings as
a `u16` length, then the encodings. -/
def encodeU16Items {α : Type} (enc : α → Except EncodeFail (List Nat))
    (xs : List α) : Except EncodeFail (List Nat) := do
  encodeU16Bytes (← encodeList enc xs)

/-- `encode_u32_items`. -/
def encodeU32Items {α : Type} (enc : α → Except EncodeFail (List Nat))
    (xs : List α) : Except EncodeFail (List Nat) := do
  encodeU32Bytes (← encodeList enc xs)

/-- The item loop of `prio::codec::decode_u16_items` / `decode_u32_items`:
repeatedly decode items from a length-delimited chunk until it is exhausted.
The fuel parameter models the loop; it is initialized to the chunk length, so
it can run out only if an item decoder consumes no bytes (in which case the
Rust loop would not terminate; no item codec of this crate has an empty
encoding). -/
def decodeChunk {α : Type} (dec : List Nat → Except CodecError (α × List Nat)) :
    Nat → List Nat → Except CodecError (List α)
  | _, [] => .ok []
  | 0, _ :: _ => .error .other
  | fuel + 1, bs => do
    let (x, rest) ← dec bs
    let xs ← decodeChunk dec fuel rest
    pure (x :: xs)

/-- `decode_u16_items`: read a `u16` byte length, take that many bytes, and
decode items from them until the sub-cursor is exhausted. -/
def decodeU16Items {α : Type} (dec : List Nat → Except CodecError (α × List Nat))
    (bs : List Nat) : Except CodecError (List α × List Nat) := do
  let (chunk, rest) ← decodeU16Bytes bs
  let xs ← decodeChunk dec chunk.length chunk
  pure (xs, rest)

/-- `decode_u32_items`. -/
def decodeU32Items {α : Type} (dec : List Nat → Except CodecError (α × List Nat))
    (bs : List Nat) : Except CodecError (List α × List Nat) := do
  let (chunk, rest) ← decodeU32Bytes bs
  let xs ← decodeChunk dec chunk.length chunk
  pure (xs, rest)

/-- The extension type code recognized by the codec
(`EXTENSION_TASKPROV = 0xff00` in `src/daphne/src/messages/mod.rs`). -/
def extensionTaskprov : Nat := 0xff00

/-- Report extension (`Extension` in `src/daphne/src/messages/mod.rs`):
either the recognized `Taskprov` extension or an `Unhandled` type code with
its opaque payload. -/
inductive Extension where
  | taskprov (payload : List Nat)
  | unhandled (typ : Nat) (payload : List Nat)
deriving DecidableEq, Repr

/-- `Extension::type_code`. -/
def Extension.typeCode : Extension → Nat
  | .taskprov _ => extensionTaskprov
  | .unhandled typ _ => typ

/-- Whether an extension decoded as `Unhandled`. -/
def Extension.isUnhandled : Extension → Bool
  | .taskprov _ => false
  | .unhandled _ _ => true

/-- `impl Encode for Extension`: the `u16` type code, then the
`u16`-length-prefixed payload. -/
def encodeExtension : Extension → Except EncodeFail (List Nat)
  | .taskprov payload => do pure (encBE 2 extensionTaskprov ++ (← encodeU16Bytes payload))
  | .unhandled typ payload => do pure (encBE 2 typ ++ (← encodeU16Bytes payload))

/-- `impl Decode for Extension`: the type code `0xff00` decodes as `Taskprov`;
every other code decodes as `Unhandled`. -/
def decodeExtension (bs : List Nat) : Except CodecError (Extension × List Nat) := do
  let (typ, r1) ← decBE 2 bs
  let (payload, r2) ← decodeU16Bytes r1
  if typ = extensionTaskprov then pure (.taskprov payload, r2)
  else pure (.unhandled typ payload, r2)

/-- The duplicate/unknown extension check run by
`ReportMetadata::decode_with_param` and `PlaintextInputShare::decode`:
walking the list with the set of type codes seen so far, fail on a repeated
type code or on any `Unhandled` extension. -/
def extensionsCheck : List Nat → List Extension → Bool
  | _, [] => true
  | seen, e :: es =>
    if e.typeCode ∈ seen then false
    else if e.isUnhandled then false
    else extensionsCheck (e.typeCode :: seen) es

/-- `ReportMetadata` (`src/daphne/src/messages/mod.rs`): report ID (16 bytes),
timestamp, and the extension list (only on the wire in draft02). -/
structure ReportMetadata where
  id : List Nat
  time : Nat
  extensions : List Extension
deriving DecidableEq, Repr

/-- `ReportMetadata::encode_with_param`: ID, `u64` time, then in draft02 the
`u16`-items extension list; in any other version a non-empty extension list
panics. -/
def encodeReportMetadata (v : DapVersion) (m : ReportMetadata) :
    Except EncodeFail (List Nat) := do
  let extBytes ← match v with
    | .draft02 => encodeU16Items encodeExtension m.extensions
    | _ => if m.extensions.isEmpty then pure [] else throw .panic
  pure (m.id ++ encBE 8 m.time ++ extBytes)

/-- The structural part of `ReportMetadata::decode_with_param`, before the
duplicate/unknown extension check. -/
def decodeReportMetadataRaw (v : DapVersion) (bs : List Nat) :
    Except CodecError (ReportMetadata × List Nat) := do
  let (id, r1) ← readBytes 16 bs
  let (time, r2) ← decBE 8 r1
  let (exts, r3) ← match v with
    | .draft02 => decodeU16Items decodeExtension r2
    | _ => pure ([], r2)
  pure (⟨id, time, exts⟩, r3)

/-- `ReportMetadata::decode_with_param`: the structural decode followed by the
duplicate/unknown extension check, which fails with `UnexpectedValue`. -/
def decodeReportMetadata (v : DapVersion) (bs : List Nat) :
    Except CodecError (ReportMetadata × List Nat) := do
  let (m, rest) ← decodeReportMetadataRaw v bs
  if extensionsCheck [] m.extensions then pure (m, rest) else throw .unexpectedValue

/-- `PlaintextInputShare` (`src/daphne/src/messages/mod.rs`): extensions and
the VDAF input-share payload (the draft07 plaintext of an input share). -/
structure PlaintextInputShare where
  extensions : List Extension
  payload : List Nat
deriving DecidableEq, Repr

/-- `impl Encode for PlaintextInputShare`. -/
def encodePlaintextInputShare (s : PlaintextInputShare) : Except EncodeFail (List Nat) := do
  pure ((← encodeU16Items encodeExtension s.extensions) ++ (← encodeU32Bytes s.payload))

/-- The structural part of `PlaintextInputShare::decode`, before the
duplicate/unknown extension check. -/
def decodePlaintextInputShareRaw (bs : List Nat) :
    Except CodecError (PlaintextInputShare × List Nat) := do
  let (exts, r1) ← decodeU16Items decodeExtension bs
  let (payload, r2) ← decodeU32Bytes r1
  pure (⟨exts, payload⟩, r2)

/-- `PlaintextInputShare::decode`: structural decode then the
duplicate/unknown extension check, failing with `UnexpectedValue`. -/
def decodePlaintextInputShare (bs : List Nat) :
    Except CodecError (PlaintextInputShare × List Nat) := do
  let (s, rest) ← decodePlaintextInputShareRaw bs
  if extensionsCheck [] s.extensions then pure (s, rest) else throw .unexpectedValue

/-- `HpkeCiphertext` (`src/daphne/src/messages/mod.rs`): config id (`u8`),
encapsulated key (`u16`-length bytes) and payload (`u32`-length bytes). -/
structure HpkeCiphertext where
  configId : Nat
  enc : List Nat
  payload : List Nat
deriving DecidableEq, Repr

/-- `impl Encode for HpkeCiphertext`. -/
def encodeHpkeCiphertext (c : HpkeCiphertext) : Except EncodeFail (List Nat) := do
  pure (encBE 1 c.configId ++ (← encodeU16Bytes c.enc) ++ (← encodeU32Bytes c.payload))

/-- `impl Decode for HpkeCiphertext`. -/
def decodeHpkeCiphertext (bs : List Nat) : Except CodecError (HpkeCiphertext × List Nat) := do
  let (configId, r1) ← decBE 1 bs
  let (enc, r2) ← decodeU16Bytes r1
  let (payload, r3) ← decodeU32Bytes r2
  pure (⟨configId, enc, payload⟩, r3)

/-- `Report` (`src/daphne/src/messages/mod.rs`): the draft02-only task ID,
metadata, public share and the encrypted input shares. -/
structure Report where
  draft02TaskId : Option (List Nat)
  metadata : ReportMetadata
  publicShare : List Nat
  encryptedInputShares : List HpkeCiphertext
deriving DecidableEq, Repr

/-- `Report::encode_with_param`: in draft02 the task ID is written first (a
missing one is `unreachable!`, i.e. a panic); then metadata, the
`u32`-length public share, and the `u32`-items ciphertext list. -/
def encodeReport (v : DapVersion) (r : Report) : Except EncodeFail (List Nat) := do
  let pre ← match v, r.draft02TaskId with
    | .draft02, some tid => pure tid
    | .draft02, none => throw .panic
    | _, _ => pure ([] : List Nat)
  let mb ← encodeReportMetadata v r.metadata
  let ps ← encodeU32Bytes r.publicShare
  let shares ← encodeU32Items encodeHpkeCiphertext r.encryptedInputShares
  pure (pre ++ mb ++ ps ++ shares)

/-- `Report::decode_with_param`. -/
def decodeReport (v : DapVersion) (bs : List Nat) : Except CodecError (Report × List Nat) := do
  let (tid, r1) ← match v with
    | .draft02 => do
      let (t, r) ← readBytes 32 bs
      pure (some t, r)
    | _ => pure ((none : Option (List Nat)), bs)
  let (m, r2) ← decodeReportMetadata v r1
  let (ps, r3) ← decodeU32Bytes r2
  let (shares, r4) ← decodeU32Items decodeHpkeCiphertext r3
  pure (⟨tid, m, ps, shares⟩, r4)

/-- `ReportShare` (`src/daphne/src/messages/mod.rs`): the per-report part of
an `AggregationJobInitReq`. -/
structure ReportShare where
  metadata : ReportMetadata
  publicShare : List Nat
  encryptedInputShare : HpkeCiphertext
deriving DecidableEq, Repr

/-- `ReportShare::encode_with_param`. -/
def encodeReportShare (v : DapVersion) (s : ReportShare) : Except EncodeFail (List Nat) := do
  pure ((← encodeReportMetadata v s.metadata) ++ (← encodeU32Bytes s.publicShare) ++
    (← encodeHpkeCiphertext s.encryptedInputShare))

/-- `ReportShare::decode_with_param`. -/
def decodeReportShare (v : DapVersion) (bs : List Nat) :
    Except CodecError (ReportShare × List Nat) := do
  let (m, r1) ← decodeReportMetadata v bs
  let (ps, r2) ← decodeU32Bytes r1
  let (c, r3) ← decodeHpkeCiphertext r2
  pure (⟨m, ps, c⟩, r3)

/-- `PartialBatchSelector` (`src/daphne/src/messages/mod.rs`). -/
inductive PartBatchSel where
  | timeInterval
  | fixedSizeByBatchId (batchId : List Nat)
deriving DecidableEq, Repr

/-- `impl Encode for PartialBatchSelector`: the query-type byte
(`0x01` time interval, `0x02` fixed size), then the batch ID if fixed size. -/
def encodePartBatchSel : PartBatchSel → Except EncodeFail (List Nat)
  | .timeInterval => .ok [1]
  | .fixedSizeByBatchId batchId => .ok (2 :: batchId)

/-- `impl Decode for PartialBatchSelector`. -/
def decodePartBatchSel (bs : List Nat) : Except CodecError (PartBatchSel × List Nat) := do
  let (tag, r1) ← decBE 1 bs
  match tag with
  | 1 => pure (.timeInterval, r1)
  | 2 => do
    let (batchId, r2) ← readBytes 32 r1
    pure (.fixedSizeByBatchId batchId, r2)
  | _ => throw .unexpectedValue

/-- `Interval` (`src/daphne/src/messages/mod.rs`): start time and duration. -/
structure Interval where
  start : Nat
  duration : Nat
deriving DecidableEq, Repr

/-- `impl Encode for Interval`. -/
def encodeInterval (i : Interval) : List Nat :=
  encBE 8 i.start ++ encBE 8 i.duration

/-- `impl Decode for Interval`. -/
def decodeInterval (bs : List Nat) : Except CodecError (Interval × List Nat) := do
  let (s, r1) ← decBE 8 bs
  let (d, r2) ← decBE 8 r1
  pure (⟨s, d⟩, r2)

/-- `Query` (`src/daphne/src/messages/mod.rs`): the Collector's query. -/
inductive Query where
  | timeInterval (batchInterval : Interval)
  | fixedSizeByBatchId (batchId : List Nat)
  | fixedSizeCurrentBatch
deriving DecidableEq, Repr

/-- `Query::encode_with_param`: fixed-size queries carry a subtype byte
except in draft02; `FixedSizeCurrentBatch` in draft02 panics. -/
def encodeQuery (v : DapVersion) : Query → Except EncodeFail (List Nat)
  | .timeInterval batchInterval => .ok (1 :: encodeInterval batchInterval)
  | .fixedSizeByBatchId batchId =>
    if v = .draft02 then .ok (2 :: batchId) else .ok (2 :: 0 :: batchId)
  | .fixedSizeCurrentBatch =>
    if v = .draft02 then .error .panic else .ok [2, 1]

/-- `Query::decode_with_param`. -/
def decodeQuery (v : DapVersion) (bs : List Nat) : Except CodecError (Query × List Nat) := do
  let (tag, r1) ← decBE 1 bs
  match tag with
  | 1 => do
    let (i, r2) ← decodeInterval r1
    pure (.timeInterval i, r2)
  | 2 =>
    if v = .draft02 then do
      let (batchId, r2) ← readBytes 32 r1
      pure (.fixedSizeByBatchId batchId, r2)
    else do
      let (subtype, r2) ← decBE 1 r1
      match subtype with
      | 0 => do
        let (batchId, r3) ← readBytes 32 r2
        pure (.fixedSizeByBatchId batchId, r3)
      | 1 => pure (.fixedSizeCurrentBatch, r2)
      | _ => throw .unexpectedValue
  | _ => throw .unexpectedValue

/-- `AggregationJobInitReq` (`src/daphne/src/messages/mod.rs`). -/
structure AggregationJobInitReq where
  draft02TaskId : Option (List Nat)
  draft02AggJobId : Option (List Nat)
  aggParam : List Nat
  partBatchSel : PartBatchSel
  reportShares : List ReportShare
deriving DecidableEq, Repr

/-- `AggregationJobInitReq::encode_with_param`: draft02 writes task ID, agg
job ID and a `u16`-length agg param (a missing ID panics via `expect`);
draft07 writes a `u32`-length agg param; the unknown version is
`unreachable!`.  Then the batch selector and the `u32`-items report shares. -/
def encodeAggregationJobInitReq (v : DapVersion) (q : AggregationJobInitReq) :
    Except EncodeFail (List Nat) := do
  let pre ← match v with
    | .draft02 =>
      match q.draft02TaskId, q.draft02AggJobId with
      | some tid, some jid => do pure (tid ++ jid ++ (← encodeU16Bytes q.aggParam))
      | _, _ => throw .panic
    | .draft07 => encodeU32Bytes q.aggParam
    | .unknown => throw .panic
  let sel ← encodePartBatchSel q.partBatchSel
  let shares ← encodeU32Items (encodeReportShare v) q.reportShares
  pure (pre ++ sel ++ shares)

/-- `AggregationJobInitReq::decode_with_param`. -/
def decodeAggregationJobInitReq (v : DapVersion) (bs : List Nat) :
    Except CodecError (AggregationJobInitReq × List Nat) := do
  let (tid, jid, aggParam, r1) ← match v with
    | .draft02 => do
      let (t, ra) ← readBytes 32 bs
      let (j, rb) ← readBytes 32 ra
      let (p, rc) ← decodeU16Bytes rb
      pure (some t, some j, p, rc)
    | .draft07 => do
      let (p, rc) ← decodeU32Bytes bs
      pure ((none : Option (List Nat)), (none : Option (List Nat)), p, rc)
    | .unknown => throw .other
  let (sel, r2) ← decodePartBatchSel r1
  let (shares, r3) ← decodeU32Items (decodeReportShare v) r2
  pure (⟨tid, jid, aggParam, sel, shares⟩, r3)

/-- Structural well-formedness of an extension: the type code of an
`Unhandled` extension fits in a `u16` (guaranteed by the Rust `u16` field
type) and is not the `Taskprov` code (which would decode as `Taskprov`). -/
def extensionWf : Extension → Bool
  | .taskprov _ => true
  | .unhandled typ _ => decide (typ < 2 ^ 16) && decide (typ ≠ extensionTaskprov)

/-- Well-formedness of a `ReportMetadata` consistent with a version: a
16-byte ID, a `u64` time, and extensions that are draft02-only, pass the
duplicate/unknown check, and are structurally well formed. -/
def reportMetadataWf (v : DapVersion) (m : ReportMetadata) : Bool :=
  decide (m.id.length = 16) && decide (m.time < 2 ^ 64) &&
    match v with
    | .draft02 => m.extensions.all extensionWf && extensionsCheck [] m.extensions
    | _ => m.extensions.isEmpty

/-- Well-formedness of an `HpkeCiphertext`: the config ID fits in a `u8`
(guaranteed by the Rust `u8` field type). -/
def hpkeCiphertextWf (c : HpkeCiphertext) : Bool :=
  decide (c.configId < 2 ^ 8)

/-- Well-formedness of a `Report` consistent with a version: the draft02 task
ID is present exactly in draft02 (32 bytes), and the components are well
formed. -/
def reportWf (v : DapVersion) (r : Report) : Bool :=
  (match v, r.draft02TaskId with
    | .draft02, some tid => decide (tid.length = 32)
    | .draft02, none => false
    | _, some _ => false
    | _, none => true) &&
  reportMetadataWf v r.metadata && r.encryptedInputShares.all hpkeCiphertextWf

/-- Well-formedness of a `ReportShare` consistent with a version. -/
def reportShareWf (v : DapVersion) (s : ReportShare) : Bool :=
  reportMetadataWf v s.metadata && hpkeCiphertextWf s.encryptedInputShare

/-- Well-formedness of a `PartialBatchSelector`: a 32-byte batch ID. -/
def partBatchSelWf : PartBatchSel → Bool
  | .timeInterval => true
  | .fixedSizeByBatchId batchId => decide (batchId.length = 32)

/-- Well-formedness of an `Interval`: `u64` fields. -/
def intervalWf (i : Interval) : Bool :=
  decide (i.start < 2 ^ 64) && decide (i.duration < 2 ^ 64)

/-- Well-formedness of a `Query` consistent with a version:
`FixedSizeCurrentBatch` cannot appear in draft02. -/
def queryWf (v : DapVersion) : Query → Bool
  | .timeInterval i => intervalWf i
  | .fixedSizeByBatchId batchId => decide (batchId.length = 32)
  | .fixedSizeCurrentBatch => decide (v ≠ .draft02)

/-- Well-formedness of an `AggregationJobInitReq` consistent with a version:
the draft02 task and aggregation-job IDs are present exactly in draft02. -/
def aggregationJobInitReqWf (v : DapVersion) (q : AggregationJobInitReq) : Bool :=
  (match v, q.draft02TaskId, q.draft02AggJobId with
    | .draft02, some tid, some jid => decide (tid.length = 32) && decide (jid.length = 32)
    | .draft02, _, _ => false
    | _, none, none => true
    | _, _, _ => false) &&
  partBatchSelWf q.partBatchSel && q.reportShares.all (reportShareWf v)

/-- `TransitionFailure` (`src/daphne/src/messages/mod.rs`): the closed
enumeration of per-report early-rejection failures. -/
inductive TransitionFailure where
  | batchCollected
  | reportReplayed
  | reportDropped
  | hpkeUnknownConfigId
  | hpkeDecryptError
  | vdafPrepError
  | batchSaturated
  | taskExpired
  | unrecognizedMessage
  | reportTooEarly
deriving DecidableEq, Repr

/-- `TransitionVar` (`src/daphne/src/messages/mod.rs`): a VDAF message to
continue with, a finished report, or a per-report failure. -/
inductive TransitionVar where
  | continued (vdafMessage : List Nat)
  | finished
  | failed (err : TransitionFailure)
deriving DecidableEq, Repr

/-- `Transition` (`src/daphne/src/messages/mod.rs`): report ID plus variant. -/
structure Transition where
  reportId : List Nat
  var : TransitionVar
deriving DecidableEq, Repr

/-- The distinct `detail` messages attached to `DapAbort::UnrecognizedMessage`
by the functions modelled in this file (each constructor corresponds to one
`detail: format!(...)` site in the sources). -/
inductive UMDetail where
  | respLenMismatch
  | respReportOutOfOrder
  | respUnexpectedFinished
  | finalLenMismatch
  | finalReportOutOfOrder
  | finalUnexpectedContinued
  | contReqRoundZero
  | contReqUnrecognizedReport
  | contReqDuplicateReport
  | contReqUnexpectedVar
  | uploadShareCount
deriving DecidableEq, Repr

/-- The DAP aborts (`DapAbort` in `src/daphne/src/error/mod.rs`) raised by the
functions modelled in this file.  `roundMismatch` carries the offending round
number (the Rust detail string interpolates it). -/
inductive DapAbort where
  | unrecognizedMessage (detail : UMDetail)
  | roundMismatch (round : Nat)
  | unrecognizedTask
  | versionUnknown
  | versionMismatch
  | reportRejected
  | reportTooLate
  | badRequest
deriving DecidableEq, Repr

/-- A batch bucket (`DapBatchBucket` in `src/daphne/src/lib.rs`, which is not
under `src/`).  Modelled from the spec: either the window start of a
quantized time bin, or a fixed-size batch ID. -/
inductive Bucket where
  | timeInterval (batchWindow : Nat)
  | fixedSize (batchId : List Nat)
deriving DecidableEq, Repr

/-- The bucket a report falls into, given the partial batch selector and the
task's time precision.  Modelled from the spec (`DapTaskConfig::bucket_for`
lives in `src/daphne/src/lib.rs`, which is not under `src/`): fixed-size
tasks use the selector's batch ID; time-interval tasks use
`time - (time mod time_precision)`. -/
def bucketFor (sel : PartBatchSel) (timePrecision : Nat) (time : Nat) : Bucket :=
  match sel with
  | .timeInterval => .timeInterval (time - time % timePrecision)
  | .fixedSizeByBatchId batchId => .fixedSize batchId

/-- One output-share contribution of an aggregate-share span.  Modelled from
the spec: `DapAggregateShareSpan` (`src/daphne/src/lib.rs`, not under `src/`)
maps buckets to merged deltas plus the contributing `(report ID, time)`
pairs; a flat contribution list carries the same information, with
`add_out_share` appending one entry. -/
structure SpanEntry (δ : Type) where
  bucket : Bucket
  reportId : List Nat
  time : Nat
  data : δ
deriving DecidableEq, Repr

/-- `add_out_share` on the flat span model: append the contribution for the
report's bucket.  In the sources this merges the output share into the
bucket's `DapAggregateShare` delta and records the report ID and time. -/
def addOutShare {δ : Type} (span : List (SpanEntry δ)) (sel : PartBatchSel)
    (timePrecision : Nat) (reportId : List Nat) (time : Nat) (data : δ) :
    List (SpanEntry δ) :=
  span ++ [⟨bucketFor sel timePrecision time, reportId, time, data⟩]

/-- The output of the Leader's `handle_agg_job_resp`
(`DapLeaderTransition` in the sources): either skip the job or go
uncommitted, retaining `(output share, report ID)` pairs and the
continue request (round, transitions). -/
inductive LeaderRespOut (δ : Type) where
  | skip
  | uncommitted (seq : List ((List Nat × Nat × δ) × List Nat))
      (round : Option Nat) (transitions : List Transition)
deriving DecidableEq, Repr

/-- The loop body of `VdafConfig::handle_agg_job_resp`
(`src/daphne/src/vdaf/mod.rs`), recursing over the zipped Helper transitions
and Leader state sequence `(step, message, time, report ID)`.  `prepFF`
abstracts `prio3_prep_finish_from_shares` / `prio2_prep_finish_from_shares`;
`none` models a VDAF/codec error. -/
def leaderRespLoop {σ μ δ : Type} (prepFF : σ → μ → List Nat → Option (δ × List Nat)) :
    List Transition → List (σ × μ × Nat × List Nat) →
    Except DapAbort (List ((List Nat × Nat × δ) × List Nat) × List Transition)
  | [], _ => .ok ([], [])
  | _ :: _, [] => .ok ([], [])
  | helper :: hs, (leaderStep, leaderMessage, leaderTime, leaderReportId) :: ls => do
    if helper.reportId ≠ leaderReportId then
      throw (.unrecognizedMessage .respReportOutOfOrder)
    else
      match helper.var with
      | .failed _ => leaderRespLoop prepFF hs ls
      | .finished => throw (.unrecognizedMessage .respUnexpectedFinished)
      | .continued helperMessage =>
        match prepFF leaderStep leaderMessage helperMessage with
        | some (data, message) => do
          let (states, seq) ← leaderRespLoop prepFF hs ls
          pure (((leaderReportId, leaderTime, data), leaderReportId) :: states,
            ⟨leaderReportId, .continued message⟩ :: seq)
        | none => leaderRespLoop prepFF hs ls

/-- `VdafConfig::handle_agg_job_resp` (`src/daphne/src/vdaf/mod.rs`), the
Leader handling the Helper's first `AggregationJobResp`: lengths must match;
report IDs must match positionally; a `Finished` transition at this stage is
an `UnrecognizedMessage` abort; `Failed` and VDAF-error reports are dropped;
if nothing survives the job is skipped, otherwise the continue request
carries `round = Some 1` except in draft02. -/
def handleAggJobResp {σ μ δ : Type} (prepFF : σ → μ → List Nat → Option (δ × List Nat))
    (version : DapVersion) (stateSeq : List (σ × μ × Nat × List Nat))
    (respTransitions : List Transition) : Except DapAbort (LeaderRespOut δ) := do
  if respTransitions.length ≠ stateSeq.length then
    throw (.unrecognizedMessage .respLenMismatch)
  else do
    let (states, seq) ← leaderRespLoop prepFF respTransitions stateSeq
    if seq.isEmpty then pure .skip
    else pure (.uncommitted states
      (if version = .draft02 then none else some 1) seq)

/-- The loop body of `VdafConfig::handle_final_agg_job_resp`
(`src/daphne/src/vdaf/mod.rs`), recursing over the zipped Helper transitions
and the uncommitted `((report ID, time, data), report ID)` pairs. -/
def leaderFinalLoop {δ : Type} (sel : PartBatchSel) (timePrecision : Nat) :
    List Transition → List ((List Nat × Nat × δ) × List Nat) → List (SpanEntry δ) →
    Except DapAbort (List (SpanEntry δ))
  | [], _, span => .ok span
  | _ :: _, [], span => .ok span
  | helper :: hs, (outShare, leaderReportId) :: ls, span => do
    if helper.reportId ≠ leaderReportId then
      throw (.unrecognizedMessage .finalReportOutOfOrder)
    else
      match helper.var with
      | .continued _ => throw (.unrecognizedMessage .finalUnexpectedContinued)
      | .failed _ => leaderFinalLoop sel timePrecision hs ls span
      | .finished =>
        leaderFinalLoop sel timePrecision hs ls
          (addOutShare span sel timePrecision outShare.1 outShare.2.1 outShare.2.2)

/-- `VdafConfig::handle_final_agg_job_resp` (`src/daphne/src/vdaf/mod.rs`),
the Leader handling the Helper's final `AggregationJobResp`: lengths must
match; report IDs must match positionally; a `Continued` transition at this
stage is an `UnrecognizedMessage` abort; `Failed` reports are dropped;
`Finished` reports are materialized into the aggregate-share span. -/
def handleFinalAggJobResp {δ : Type} (sel : PartBatchSel) (timePrecision : Nat)
    (uncommitted : List ((List Nat × Nat × δ) × List Nat))
    (respTransitions : List Transition) : Except DapAbort (List (SpanEntry δ)) := do
  if respTransitions.length ≠ uncommitted.length then
    throw (.unrecognizedMessage .finalLenMismatch)
  else leaderFinalLoop sel timePrecision respTransitions uncommitted []

/-- The `helper_iter.by_ref().find(...)` step of
`VdafConfig::handle_agg_job_cont_req` (`src/daphne/src/vdaf/mod.rs`): scan
the remaining Helper entries `(step, time, report ID)` for the Leader's
report ID.  The Rust find-closure inserts every inspected report ID —
including the matching one — into the `processed` set; the first component
returns those inspected IDs. -/
def scanForReport {σ : Type} (target : List Nat) :
    List (σ × Nat × List Nat) →
    List (List Nat) × Option ((σ × Nat × List Nat) × List (σ × Nat × List Nat))
  | [] => ([], none)
  | e :: es =>
    if e.2.2 = target then ([e.2.2], some (e, es))
    else
      let (ids, found) := scanForReport target es
      (e.2.2 :: ids, found)

/-- The transition loop of `VdafConfig::handle_agg_job_cont_req`
(`src/daphne/src/vdaf/mod.rs`): for each Leader transition, reject
unrecognized or already-processed report IDs with `UnrecognizedMessage`;
advance the Helper iterator to the matching entry (recording every skipped
ID as processed); stop early (`break`) if the Helper entries run out; reject
a non-`Continued` Leader transition; then emit `Failed(ReportReplayed)`,
`Finished` (adding the output share to the span), or
`Failed(VdafPrepError)`.  `prepFin` abstracts `prio3_prep_finish` /
`prio2_prep_finish`, with `none` modelling a VDAF/codec error. -/
def contReqLoop {σ δ : Type} (prepFin : σ → List Nat → Option δ)
    (isReplay : List Nat → Bool) (sel : PartBatchSel) (timePrecision : Nat)
    (recognized : List (List Nat)) :
    List Transition → List (List Nat) → List (σ × Nat × List Nat) →
    List (SpanEntry δ) → List Transition →
    Except DapAbort (List (SpanEntry δ) × List Transition)
  | [], _, _, span, outs => .ok (span, outs)
  | leader :: ls, processed, rest, span, outs =>
    if leader.reportId ∉ recognized then
      .error (.unrecognizedMessage .contReqUnrecognizedReport)
    else if leader.reportId ∈ processed then
      .error (.unrecognizedMessage .contReqDuplicateReport)
    else
      match scanForReport leader.reportId rest with
      | (_, none) => .ok (span, outs)
      | (scanned, some ((helperStep, helperTime, helperReportId), rest')) =>
        match leader.var with
        | .continued leaderMessage =>
          if isReplay leader.reportId then
            contReqLoop prepFin isReplay sel timePrecision recognized ls
              (processed ++ scanned) rest' span
              (outs ++ [⟨helperReportId, .failed .reportReplayed⟩])
          else
            match prepFin helperStep leaderMessage with
            | some data =>
              contReqLoop prepFin isReplay sel timePrecision recognized ls
                (processed ++ scanned) rest'
                (addOutShare span sel timePrecision helperReportId helperTime data)
                (outs ++ [⟨helperReportId, .finished⟩])
            | none =>
              contReqLoop prepFin isReplay sel timePrecision recognized ls
                (processed ++ scanned) rest' span
                (outs ++ [⟨helperReportId, .failed .vdafPrepError⟩])
        | _ => .error (.unrecognizedMessage .contReqUnexpectedVar)

/-- `VdafConfig::handle_agg_job_cont_req` (`src/daphne/src/vdaf/mod.rs`), the
Helper handling the Leader's `AggregationJobContinueReq`: the `round` field
is matched as `Some(1) | None` (accepted), `Some(0)` (an
`UnrecognizedMessage` abort), any other `Some(r)` (a `RoundMismatch`
abort); then the transition loop runs over the Helper state sequence. -/
def handleAggJobContReq {σ δ : Type} (prepFin : σ → List Nat → Option δ)
    (isReplay : List Nat → Bool) (sel : PartBatchSel) (timePrecision : Nat)
    (helperSeq : List (σ × Nat × List Nat)) (round : Option Nat)
    (transitions : List Transition) :
    Except DapAbort (List (SpanEntry δ) × List Transition) :=
  match round with
  | some 0 => .error (.unrecognizedMessage .contReqRoundZero)
  | some (r + 2) => .error (.roundMismatch (r + 2))
  | _ =>
    contReqLoop prepFin isReplay sel timePrecision
      (helperSeq.map (fun e => e.2.2)) transitions [] helperSeq [] []

/-- The HPKE context string `"dap-02 input share"`
(`CTX_INPUT_SHARE_DRAFT02` in `src/daphne/src/vdaf/mod.rs`), as bytes. -/
def ctxInputShareDraft02 : List Nat :=
  [100, 97, 112, 45, 48, 50, 32, 105, 110, 112, 117, 116, 32, 115, 104, 97, 114, 101]

/-- The HPKE context string `"dap-07 input share"`
(`CTX_INPUT_SHARE_DRAFT07` in `src/daphne/src/vdaf/mod.rs`), as bytes. -/
def ctxInputShareDraft07 : List Nat :=
  [100, 97, 112, 45, 48, 55, 32, 105, 110, 112, 117, 116, 32, 115, 104, 97, 114, 101]

/-- Report state after the consume step (`EarlyReportStateConsumed` in
`src/daphne/src/vdaf/mod.rs`). -/
inductive EarlyReportStateConsumed where
  | ready (metadata : ReportMetadata) (publicShare : List Nat) (inputShare : List Nat)
  | rejected (metadata : ReportMetadata) (failure : TransitionFailure)
deriving DecidableEq, Repr

/-- `EarlyReportState::metadata` for the consumed state. -/
def consumedMetadata : EarlyReportStateConsumed → ReportMetadata
  | .ready metadata _ _ => metadata
  | .rejected metadata _ => metadata

/-- `EarlyReportState::is_ready` for the consumed state. -/
def consumedIsReady : EarlyReportStateConsumed → Bool
  | .ready _ _ _ => true
  | .rejected _ _ => false

/-- The result of the HPKE decrypter (`HpkeDecrypter::hpke_decrypt`): the
plaintext, a per-report transition failure, or any other (fatal) error. -/
inductive DecryptFail where
  | transition (failure : TransitionFailure)
  | fatal
deriving DecidableEq, Repr

/-- `EarlyReportStateConsumed::consume` (`src/daphne/src/vdaf/mod.rs`):
reject an expired report with `TaskExpired` before anything else; build the
HPKE `info` (context label, client sender role, receiver role) and `aad`
(task ID, encoded metadata, length-prefixed public share); open the
envelope, turning a transition-failure error into a rejection and any other
error into a fatal error (`Except.error ()`); in draft02 the plaintext is
the raw input share, in draft07 it must fully decode as a
`PlaintextInputShare` (a decode failure rejects with
`UnrecognizedMessage`).  The `hpkeDecrypt` parameter abstracts the
decrypter, receiving `info`, `aad` and the ciphertext.  An encoding panic
while building `aad` is modelled as a fatal error (it cannot occur for
metadata that was decoded from the wire). -/
def consumeReport (hpkeDecrypt : List Nat → List Nat → HpkeCiphertext → Except DecryptFail (List Nat))
    (isLeader : Bool) (taskId : List Nat) (version : DapVersion) (expiration : Nat)
    (metadata : ReportMetadata) (publicShare : List Nat)
    (encryptedInputShare : HpkeCiphertext) : Except Unit EarlyReportStateConsumed :=
  if metadata.time ≥ expiration then .ok (.rejected metadata .taskExpired)
  else
    match version with
    | .unknown => .error ()
    | v =>
      match encodeReportMetadata version metadata with
      | .error _ => .error ()
      | .ok aadMeta =>
        match encodeU32Bytes publicShare with
        | .error _ => .error ()
        | .ok aadPs =>
          match hpkeDecrypt
              ((if v = .draft02 then ctxInputShareDraft02 else ctxInputShareDraft07) ++
                [1, if isLeader then 2 else 3])
              (taskId ++ aadMeta ++ aadPs) encryptedInputShare with
          | .error (.transition failure) => .ok (.rejected metadata failure)
          | .error .fatal => .error ()
          | .ok encodedInputShare =>
            match version with
            | .draft02 => .ok (.ready metadata publicShare encodedInputShare)
            | .draft07 =>
              match decodePlaintextInputShare encodedInputShare with
              | .ok (s, []) => .ok (.ready metadata publicShare s.payload)
              | .ok (_, _ :: _) => .ok (.rejected metadata .unrecognizedMessage)
              | .error _ => .ok (.rejected metadata .unrecognizedMessage)
            | .unknown => .error ()

/-- Report state after VDAF preparation (`EarlyReportStateInitialized` in
`src/daphne/src/vdaf/mod.rs`), with abstract prepare state `σ` and prepare
message `μ`. -/
inductive EarlyReportStateInitialized (σ μ : Type) where
  | ready (metadata : ReportMetadata) (publicShare : List Nat) (state : σ) (message : μ)
  | rejected (metadata : ReportMetadata) (failure : TransitionFailure)
deriving DecidableEq, Repr

/-- `EarlyReportStateInitialized::initialize` (`src/daphne/src/vdaf/mod.rs`):
a rejected consumed report passes through; a ready one runs VDAF prep-init
(abstracted by `prepInit`, which receives the report-ID nonce, the public
share and the input share); a preparation error rejects with
`VdafPrepError`.  (The fatal verify-key/config mismatch branch of the Rust
code is a deployment error outside this model.) -/
def initializeReport {σ μ : Type} (prepInit : List Nat → List Nat → List Nat → Option (σ × μ))
    (c : EarlyReportStateConsumed) : EarlyReportStateInitialized σ μ :=
  match c with
  | .rejected metadata failure => .rejected metadata failure
  | .ready metadata publicShare inputShare =>
    match prepInit metadata.id publicShare inputShare with
    | some (state, message) => .ready metadata publicShare state message
    | none => .rejected metadata .vdafPrepError

/-- The `DURABLE_REPORTS_PROCESSED_INITIALIZE` handler
(`src/daphne_worker/src/durable/reports_processed.rs`): collect the IDs of
the *ready* consumed reports already recorded as aggregated in this object's
storage (`recorded`); then map the consumed reports in order, turning
members of that replay set into `Rejected(ReportReplayed)` and initializing
the rest. -/
def reportsProcessedInitialize {σ μ : Type}
    (prepInit : List Nat → List Nat → List Nat → Option (σ × μ))
    (recorded : List (List Nat)) (consumed : List EarlyReportStateConsumed) :
    List (EarlyReportStateInitialized σ μ) :=
  let replayed :=
    ((consumed.filter consumedIsReady).map (fun c => (consumedMetadata c).id)).filter
      (fun id => id ∈ recorded)
  consumed.map (fun c =>
    if (consumedMetadata c).id ∈ replayed then
      .rejected (consumedMetadata c) .reportReplayed
    else initializeReport prepInit c)

/-- The task-configuration fields consulted by the upload handler. -/
structure TaskCfgLite where
  version : DapVersion
  expiration : Nat
deriving DecidableEq, Repr

/-- The environment of `DapLeader::handle_upload_req`: whether the request's
content type is the `Report` media type, the task configuration looked up
for the request's task ID (`none` = unrecognized task), and whether an HPKE
configuration with a given ID is present. -/
structure UploadEnv where
  mediaTypeOk : Bool
  taskConfig : Option TaskCfgLite
  canHpkeDecrypt : Nat → Bool

/-- `DapLeader::handle_upload_req` (`src/daphne/src/roles/leader.rs`), from
the decoded `Report` on: reject an unknown request version; check the media
type; look up the task configuration; check the version matches; require
exactly two encrypted input shares (else `UnrecognizedMessage`); check the
Leader share's HPKE config ID is known (else `ReportRejected`); reject an
expired report (`ReportTooLate`); finally store the report — the returned
value is the report passed to `put_report`. -/
def handleUploadReq (env : UploadEnv) (reqVersion : DapVersion) (report : Report) :
    Except DapAbort Report :=
  if reqVersion = .unknown then .error .versionUnknown
  else if ¬ env.mediaTypeOk then .error .badRequest
  else
    match env.taskConfig with
    | none => .error .unrecognizedTask
    | some cfg =>
      if cfg.version ≠ reqVersion then .error .versionMismatch
      else
        match report.encryptedInputShares with
        | [leaderShare, _] =>
          if ¬ env.canHpkeDecrypt leaderShare.configId then .error .reportRejected
          else if report.metadata.time ≥ cfg.expiration then .error .reportTooLate
          else .ok report
        | _ => .error (.unrecognizedMessage .uploadShareCount)

/-- The `DURABLE_REPORTS_PROCESSED_MARK_AGGREGATED` handler
(`src/daphne_worker/src/durable/reports_processed.rs`): `check_replays`
partitions the submitted IDs against this object's storage; if some are
replayed, respond with the replayed IDs and store nothing; if all are
fresh, record every submitted ID and respond with the empty list.  Returns
`(new recorded set, replayed IDs)`. -/
def markAggregated (recorded : List (List Nat)) (ids : List (List Nat)) :
    List (List Nat) × List (List Nat) :=
  if (ids.filter (fun id => id ∈ recorded)).isEmpty then (recorded ++ ids, [])
  else (recorded, ids.filter (fun id => id ∈ recorded))

/-- The storage state seen by `try_put_agg_share_span`: each
`ReportsProcessed` durable object (keyed by shard name) holds the set of
report IDs recorded as aggregated, and each `AggregateStore` object (keyed
by aggregate-store name) holds a merged aggregate share. -/
structure WorkerStore (δ : Type) where
  processed : Nat → List (List Nat)
  aggStore : Nat → δ

/-- The merged delta destined for one aggregate-store name: the span's
shares for that name folded left in span order (the `HashMap` entry-merge in
`try_put_agg_share_span`), or `none` if the span has no bucket with that
name. -/
def spanDeltaFor {δ : Type} (aggName : Bucket → Nat) (merge : δ → δ → δ)
    (span : List (Bucket × δ × List (List Nat × Nat))) (n : Nat) : Option δ :=
  match (span.filter (fun e => aggName e.1 = n)).map (fun e => e.2.1) with
  | [] => none
  | d :: ds => some (ds.foldl merge d)

/-- The report IDs of a span destined for one `ReportsProcessed` shard
(the `reports_processed_request_data` grouping of
`try_put_agg_share_span`, with `shardName` modelling
`durable_name_report_store`). -/
def idsForShard (shardName : List Nat → Nat → Nat)
    (span : List (Bucket × δ × List (List Nat × Nat))) (s : Nat) : List (List Nat) :=
  ((span.flatMap (fun e => e.2.2)).filter (fun r => shardName r.1 r.2 = s)).map (fun r => r.1)

/-- The flattened replay set returned by posting `mark_aggregated` to every
shard touched by the span (`try_put_agg_share_span`). -/
def tryPutReplayed {δ : Type} (shardName : List Nat → Nat → Nat) (st : WorkerStore δ)
    (span : List (Bucket × δ × List (List Nat × Nat))) : List (List Nat) :=
  ((span.flatMap (fun e => e.2.2)).map (fun r => shardName r.1 r.2)).dedup.flatMap
    (fun s => (markAggregated (st.processed s) (idsForShard shardName span s)).2)

/-- `try_put_agg_share_span` (`src/daphne_worker/src/roles/aggregator.rs`):
group the span's report IDs by `ReportsProcessed` shard (`shardName` models
`durable_name_report_store`) and its bucket deltas by aggregate-store name
(`aggName` models `durable_name_agg_store`); post `mark_aggregated` to
every shard and flatten the returned replay sets; merge the bucket deltas
into the aggregate store only when the replay set is empty (`Ok(None)`),
otherwise leave every aggregate-store entry unchanged and surface the
replay set (`Ok(Some(replayed))`). -/
def tryPutAggShareSpan {δ : Type} (shardName : List Nat → Nat → Nat)
    (aggName : Bucket → Nat) (merge : δ → δ → δ) (st : WorkerStore δ)
    (span : List (Bucket × δ × List (List Nat × Nat))) :
    WorkerStore δ × Option (List (List Nat)) :=
  if (tryPutReplayed shardName st span).isEmpty then
    (⟨fun s => (markAggregated (st.processed s) (idsForShard shardName span s)).1,
      fun n =>
        match spanDeltaFor aggName merge span n with
        | some delta => merge (st.aggStore n) delta
        | none => st.aggStore n⟩, none)
  else
    (⟨fun s => (markAggregated (st.processed s) (idsForShard shardName span s)).1,
      st.aggStore⟩, some (tryPutReplayed shardName st span))

/-- A decoder `dec` inverts an encoder `enc` on the value `x`: the encoding
is nonempty and decoding it off the front of any stream returns `x` and the
unconsumed tail. -/
def DecInverts {α : Type} (enc : α → Except EncodeFail (List Nat))
    (dec : List Nat → Except CodecError (α × List Nat)) (x : α) : Prop :=
  ∀ bx, enc x = .ok bx → 0 < bx.length ∧ ∀ r, dec (bx ++ r) = .ok (x, r)

/-- The concrete draft07 report used to witness C2. -/
def c2WitnessReport : Report :=
  ⟨none, ⟨[1, 1, 1, 1, 1, 1, 1, 1, 1, 1, 1, 1, 1, 1, 1, 1], 5, []⟩, [9],
    [⟨23, [1], [2]⟩, ⟨119, [], [3]⟩]⟩

/-- The encoding of `c2WitnessReport` under draft07. -/
def c2WitnessBytes : List Nat :=
  [1, 1, 1, 1, 1, 1, 1, 1, 1, 1, 1, 1, 1, 1, 1, 1, 0, 0, 0, 0, 0, 0, 0, 5, 0, 0, 0, 1, 9,
   0, 0, 0, 17, 23, 0, 1, 1, 0, 0, 0, 1, 2, 119, 0, 0, 0, 0, 0, 1, 3]

end Daphne

namespace Daphne

theorem encBE_length (w n : Nat) : (encBE w n).length = w := by
  induction w generalizing n with
  | zero => rfl
  | succ w ih => simp [encBE, ih]

theorem beVal_append_singleton (bs : List Nat) (b : Nat) :
    beVal (bs ++ [b]) = beVal bs * 256 + b := by
  simp [beVal, List.foldl_append]

theorem beVal_encBE (w n : Nat) (h : n < 256 ^ w) : beVal (encBE w n) = n := by
  induction w generalizing n with
  | zero =>
    interval_cases n
    rfl
  | succ w ih =>
    have hdiv : n / 256 < 256 ^ w := by
      rw [Nat.div_lt_iff_lt_mul (by norm_num)]
      calc n < 256 ^ (w + 1) := h
        _ = 256 ^ w * 256 := by ring
    rw [encBE, beVal_append_singleton, ih (n / 256) hdiv]
    omega

theorem readBytes_append (pre rest : List Nat) :
    readBytes pre.length (pre ++ rest) = .ok (pre, rest) := by
  simp [readBytes]

theorem readBytes_append_of_length (w : Nat) (pre rest : List Nat) (h : pre.length = w) :
    readBytes w (pre ++ rest) = .ok (pre, rest) := by
  subst h
  exact readBytes_append pre rest

theorem decBE_encBE (w n : Nat) (rest : List Nat) (h : n < 256 ^ w) :
    decBE w (encBE w n ++ rest) = .ok (n, rest) := by
  simp only [decBE]
  rw [readBytes_append_of_length w (encBE w n) rest (encBE_length w n)]
  simp [beVal_encBE w n h]

theorem decodeU16Bytes_encodeU16Bytes (data bs rest : List Nat)
    (h : encodeU16Bytes data = .ok bs) :
    decodeU16Bytes (bs ++ rest) = .ok (data, rest) := by
  unfold encodeU16Bytes at h
  split at h
  · rename_i hlt
    cases h
    simp only [decodeU16Bytes, List.append_assoc]
    rw [decBE_encBE 2 data.length (data ++ rest) (by simpa using hlt)]
    simpa using readBytes_append data rest
  · cases h

theorem decodeU32Bytes_encodeU32Bytes (data bs rest : List Nat)
    (h : encodeU32Bytes data = .ok bs) :
    decodeU32Bytes (bs ++ rest) = .ok (data, rest) := by
  unfold encodeU32Bytes at h
  split at h
  · rename_i hlt
    cases h
    simp only [decodeU32Bytes, List.append_assoc]
    rw [decBE_encBE 4 data.length (data ++ rest) (by simpa using hlt)]
    simpa using readBytes_append data rest
  · cases h

theorem except_bind_ok {ε α β : Type} (a : α) (f : α → Except ε β) :
    (Except.ok a >>= f : Except ε β) = f a := rfl

theorem except_bind_err {ε α β : Type} (e : ε) (f : α → Except ε β) :
    (Except.error e >>= f : Except ε β) = .error e := rfl

theorem decodeChunk_encodeList {α : Type} (enc : α → Except EncodeFail (List Nat))
    (dec : List Nat → Except CodecError (α × List Nat)) (xs : List α)
    (concat : List Nat) (fuel : Nat) (henc : encodeList enc xs = .ok concat)
    (hitem : ∀ x ∈ xs, DecInverts enc dec x) (hfuel : xs.length ≤ fuel) :
    decodeChunk dec fuel concat = .ok xs := by
  induction xs generalizing concat fuel with
  | nil =>
    simp only [encodeList, Except.ok.injEq] at henc
    subst henc
    cases fuel <;> rfl
  | cons x xs ih =>
    simp only [encodeList, bind, Except.bind] at henc
    cases hx : enc x with
    | error e => rw [hx] at henc; cases henc
    | ok bx =>
      rw [hx] at henc
      cases hxs : encodeList enc xs with
      | error e => rw [hxs] at henc; cases henc
      | ok bxs =>
        rw [hxs] at henc
        simp only [pure, Except.pure, Except.ok.injEq] at henc
        subst henc
        obtain ⟨hpos, hdec⟩ := hitem x (List.mem_cons_self x xs) bx hx
        cases fuel with
        | zero => simp at hfuel
        | succ f =>
          obtain ⟨b0, bx', rfl⟩ : ∃ b0 bx', bx = b0 :: bx' := by
            cases bx with
            | nil => simp at hpos
            | cons b0 bx' => exact ⟨b0, bx', rfl⟩
          have hd := hdec bxs
          have hrec := ih bxs f hxs (fun y hy => hitem y (List.mem_cons_of_mem x hy))
            (Nat.le_of_succ_le_succ hfuel)
          simp only [List.cons_append] at hd ⊢
          simp only [decodeChunk, bind, Except.bind, hd, hrec, pure, Except.pure]

theorem encodeList_length_le {α : Type} (enc : α → Except EncodeFail (List Nat))
    (dec : List Nat → Except CodecError (α × List Nat)) (xs : List α)
    (concat : List Nat) (hcat : encodeList enc xs = .ok concat)
    (hitem : ∀ x ∈ xs, DecInverts enc dec x) : xs.length ≤ concat.length := by
  induction xs generalizing concat with
  | nil => simp
  | cons x xs ih =>
    simp only [encodeList, bind, Except.bind] at hcat
    cases hx : enc x with
    | error e => rw [hx] at hcat; cases hcat
    | ok bx =>
      rw [hx] at hcat
      cases hxs : encodeList enc xs with
      | error e => rw [hxs] at hcat; cases hcat
      | ok bxs =>
        rw [hxs] at hcat
        simp only [pure, Except.pure, Except.ok.injEq] at hcat
        subst hcat
        have h1 := (hitem x (List.mem_cons_self x xs) bx hx).1
        have h2 := ih bxs hxs (fun y hy => hitem y (List.mem_cons_of_mem x hy))
        simp only [List.length_append, List.length_cons]
        omega

theorem decodeU16Items_encodeU16Items {α : Type}
    (enc : α → Except EncodeFail (List Nat))
    (dec : List Nat → Except CodecError (α × List Nat)) (xs : List α)
    (bs rest : List Nat) (henc : encodeU16Items enc xs = .ok bs)
    (hitem : ∀ x ∈ xs, DecInverts enc dec x) :
    decodeU16Items dec (bs ++ rest) = .ok (xs, rest) := by
  simp only [encodeU16Items, bind, Except.bind] at henc
  cases hcat : encodeList enc xs with
  | error e => rw [hcat] at henc; cases henc
  | ok concat =>
    rw [hcat] at henc
    have hbytes := decodeU16Bytes_encodeU16Bytes concat bs rest henc
    have hlen : xs.length ≤ concat.length := encodeList_length_le enc dec xs concat hcat hitem
    simp only [decodeU16Items, bind, Except.bind, hbytes,
      decodeChunk_encodeList enc dec xs concat concat.length hcat hitem hlen, pure,
      Except.pure]

theorem decodeU32Items_encodeU32Items {α : Type}
    (enc : α → Except EncodeFail (List Nat))
    (dec : List Nat → Except CodecError (α × List Nat)) (xs : List α)
    (bs rest : List Nat) (henc : encodeU32Items enc xs = .ok bs)
    (hitem : ∀ x ∈ xs, DecInverts enc dec x) :
    decodeU32Items dec (bs ++ rest) = .ok (xs, rest) := by
  simp only [encodeU32Items, bind, Except.bind] at henc
  cases hcat : encodeList enc xs with
  | error e => rw [hcat] at henc; cases henc
  | ok concat =>
    rw [hcat] at henc
    have hbytes := decodeU32Bytes_encodeU32Bytes concat bs rest henc
    have hlen : xs.length ≤ concat.length := encodeList_length_le enc dec xs concat hcat hitem
    simp only [decodeU32Items, bind, Except.bind, hbytes,
      decodeChunk_encodeList enc dec xs concat concat.length hcat hitem hlen, pure,
      Except.pure]

theorem decInverts_extension (e : Extension) (hwf : extensionWf e = true) :
    DecInverts encodeExtension decodeExtension e := by
  intro bx henc
  cases e with
  | taskprov payload =>
    simp only [encodeExtension, bind, Except.bind] at henc
    cases hp : encodeU16Bytes payload with
    | error err => rw [hp] at henc; cases henc
    | ok pb =>
      rw [hp] at henc
      simp only [pure, Except.pure, Except.ok.injEq] at henc
      subst henc
      constructor
      · simp [encBE_length]
      · intro r
        simp only [decodeExtension, List.append_assoc, bind, Except.bind,
          decBE_encBE 2 extensionTaskprov (pb ++ r) (by decide),
          decodeU16Bytes_encodeU16Bytes payload pb r hp]
        simp [pure, Except.pure]
  | unhandled typ payload =>
    simp only [extensionWf, Bool.and_eq_true, decide_eq_true_eq] at hwf
    simp only [encodeExtension, bind, Except.bind] at henc
    cases hp : encodeU16Bytes payload with
    | error err => rw [hp] at henc; cases henc
    | ok pb =>
      rw [hp] at henc
      simp only [pure, Except.pure, Except.ok.injEq] at henc
      subst henc
      constructor
      · simp [encBE_length]
      · intro r
        simp only [decodeExtension, List.append_assoc, bind, Except.bind,
          decBE_encBE 2 typ (pb ++ r) (by simpa using hwf.1),
          decodeU16Bytes_encodeU16Bytes payload pb r hp]
        simp [pure, Except.pure, hwf.2]

theorem decInverts_hpkeCiphertext (c : HpkeCiphertext) (hwf : hpkeCiphertextWf c = true) :
    DecInverts encodeHpkeCiphertext decodeHpkeCiphertext c := by
  intro bx henc
  simp only [hpkeCiphertextWf, decide_eq_true_eq] at hwf
  simp only [encodeHpkeCiphertext, bind, Except.bind] at henc
  cases he : encodeU16Bytes c.enc with
  | error err => rw [he] at henc; cases henc
  | ok eb =>
    rw [he] at henc
    cases hp : encodeU32Bytes c.payload with
    | error err => rw [hp] at henc; cases henc
    | ok pb =>
      rw [hp] at henc
      simp only [pure, Except.pure, Except.ok.injEq] at henc
      subst henc
      constructor
      · simp [encBE_length]
      · intro r
        simp only [decodeHpkeCiphertext, List.append_assoc, bind, Except.bind,
          decBE_encBE 1 c.configId (eb ++ (pb ++ r)) (by simpa using hwf),
          decodeU16Bytes_encodeU16Bytes c.enc eb (pb ++ r) he,
          decodeU32Bytes_encodeU32Bytes c.payload pb r hp]
        simp [pure, Except.pure]

theorem decInverts_reportMetadata (v : DapVersion) (m : ReportMetadata)
    (hwf : reportMetadataWf v m = true) :
    DecInverts (encodeReportMetadata v) (decodeReportMetadata v) m := by
  intro bx henc
  simp only [reportMetadataWf, Bool.and_eq_true, decide_eq_true_eq] at hwf
  obtain ⟨⟨hid, htime⟩, hvext⟩ := hwf
  cases v with
  | draft02 =>
    simp only [Bool.and_eq_true] at hvext
    obtain ⟨hallwf, hcheck⟩ := hvext
    simp only [encodeReportMetadata, bind, Except.bind] at henc
    cases hext : encodeU16Items encodeExtension m.extensions with
    | error err => rw [hext] at henc; cases henc
    | ok eb =>
      rw [hext] at henc
      simp only [pure, Except.pure, Except.ok.injEq] at henc
      subst henc
      constructor
      · simp [hid]
      · intro r
        have hitems : ∀ e ∈ m.extensions, DecInverts encodeExtension decodeExtension e :=
          fun e he => decInverts_extension e (by
            have := List.all_eq_true.mp hallwf e he
            simpa using this)
        simp only [decodeReportMetadata, decodeReportMetadataRaw, List.append_assoc,
          bind, Except.bind,
          readBytes_append_of_length 16 m.id (encBE 8 m.time ++ (eb ++ r)) hid,
          decBE_encBE 8 m.time (eb ++ r) (by simpa using htime),
          decodeU16Items_encodeU16Items encodeExtension decodeExtension m.extensions
            eb r hext hitems]
        simp [pure, Except.pure, hcheck]
  | draft07 =>
    have hvextb : m.extensions.isEmpty = true := hvext
    have hext : m.extensions = [] := List.isEmpty_iff.mp hvextb
    simp only [encodeReportMetadata, bind, Except.bind] at henc
    rw [if_pos hvextb] at henc
    simp only [pure, Except.pure, Except.ok.injEq] at henc
    subst henc
    constructor
    · simp [hid]
    · intro r
      simp only [List.append_nil, decodeReportMetadata, decodeReportMetadataRaw,
        List.append_assoc, bind, Except.bind,
        readBytes_append_of_length 16 m.id (encBE 8 m.time ++ r) hid,
        decBE_encBE 8 m.time r (by simpa using htime)]
      simp only [pure, Except.pure, extensionsCheck, if_true]
      rw [← hext]
  | unknown =>
    have hvextb : m.extensions.isEmpty = true := hvext
    have hext : m.extensions = [] := List.isEmpty_iff.mp hvextb
    simp only [encodeReportMetadata, bind, Except.bind] at henc
    rw [if_pos hvextb] at henc
    simp only [pure, Except.pure, Except.ok.injEq] at henc
    subst henc
    constructor
    · simp [hid]
    · intro r
      simp only [List.append_nil, decodeReportMetadata, decodeReportMetadataRaw,
        List.append_assoc, bind, Except.bind,
        readBytes_append_of_length 16 m.id (encBE 8 m.time ++ r) hid,
        decBE_encBE 8 m.time r (by simpa using htime)]
      simp only [pure, Except.pure, extensionsCheck, if_true]
      rw [← hext]

theorem decInverts_reportShare (v : DapVersion) (s : ReportShare)
    (hwf : reportShareWf v s = true) :
    DecInverts (encodeReportShare v) (decodeReportShare v) s := by
  intro bx henc
  simp only [reportShareWf, Bool.and_eq_true] at hwf
  obtain ⟨hm, hc⟩ := hwf
  simp only [encodeReportShare, bind, Except.bind] at henc
  cases hmb : encodeReportMetadata v s.metadata with
  | error err => rw [hmb] at henc; cases henc
  | ok mb =>
    rw [hmb] at henc
    cases hpb : encodeU32Bytes s.publicShare with
    | error err => rw [hpb] at henc; cases henc
    | ok pb =>
      rw [hpb] at henc
      cases hcb : encodeHpkeCiphertext s.encryptedInputShare with
      | error err => rw [hcb] at henc; cases henc
      | ok cb =>
        rw [hcb] at henc
        simp only [pure, Except.pure, Except.ok.injEq] at henc
        subst henc
        obtain ⟨hmpos, hmdec⟩ := decInverts_reportMetadata v s.metadata hm mb hmb
        obtain ⟨hcpos, hcdec⟩ := decInverts_hpkeCiphertext s.encryptedInputShare hc cb hcb
        constructor
        · simp only [List.length_append]
          omega
        · intro r
          simp only [decodeReportShare, List.append_assoc, bind, Except.bind,
            hmdec (pb ++ (cb ++ r)),
            decodeU32Bytes_encodeU32Bytes s.publicShare pb (cb ++ r) hpb,
            hcdec r]
          simp [pure, Except.pure]

theorem decInverts_report (v : DapVersion) (r : Report) (hwf : reportWf v r = true) :
    DecInverts (encodeReport v) (decodeReport v) r := by
  intro bx henc
  simp only [reportWf, Bool.and_eq_true] at hwf
  obtain ⟨⟨htid, hm⟩, hshares⟩ := hwf
  have hsharesInv : ∀ c ∈ r.encryptedInputShares,
      DecInverts encodeHpkeCiphertext decodeHpkeCiphertext c :=
    fun c hc => decInverts_hpkeCiphertext c (List.all_eq_true.mp hshares c hc)
  simp only [encodeReport, bind, Except.bind] at henc
  cases v with
  | draft02 =>
    cases htidv : r.draft02TaskId with
    | none => rw [htidv] at htid; cases htid
    | some tid =>
      rw [htidv] at htid henc
      simp only [decide_eq_true_eq] at htid
      cases hmb : encodeReportMetadata .draft02 r.metadata with
      | error err => rw [hmb] at henc; cases henc
      | ok mb =>
        rw [hmb] at henc
        cases hpb : encodeU32Bytes r.publicShare with
        | error err => rw [hpb] at henc; cases henc
        | ok pb =>
          rw [hpb] at henc
          cases hsb : encodeU32Items encodeHpkeCiphertext r.encryptedInputShares with
          | error err => rw [hsb] at henc; cases henc
          | ok sb =>
            rw [hsb] at henc
            simp only [pure, Except.pure, Except.ok.injEq] at henc
            subst henc
            obtain ⟨hmpos, hmdec⟩ := decInverts_reportMetadata .draft02 r.metadata hm mb hmb
            constructor
            · simp only [List.length_append]
              omega
            · intro rest
              simp only [decodeReport, List.append_assoc, bind, Except.bind, pure,
                Except.pure,
                readBytes_append_of_length 32 tid (mb ++ (pb ++ (sb ++ rest))) htid,
                hmdec (pb ++ (sb ++ rest)),
                decodeU32Bytes_encodeU32Bytes r.publicShare pb (sb ++ rest) hpb,
                decodeU32Items_encodeU32Items encodeHpkeCiphertext decodeHpkeCiphertext
                  r.encryptedInputShares sb rest hsb hsharesInv, Except.ok.injEq,
                Prod.mk.injEq]
              rw [← htidv]
              exact ⟨rfl, trivial⟩
  | draft07 =>
    cases htidv : r.draft02TaskId with
    | some tid => rw [htidv] at htid; cases htid
    | none =>
      rw [htidv] at henc
      cases hmb : encodeReportMetadata .draft07 r.metadata with
      | error err => rw [hmb] at henc; cases henc
      | ok mb =>
        rw [hmb] at henc
        cases hpb : encodeU32Bytes r.publicShare with
        | error err => rw [hpb] at henc; cases henc
        | ok pb =>
          rw [hpb] at henc
          cases hsb : encodeU32Items encodeHpkeCiphertext r.encryptedInputShares with
          | error err => rw [hsb] at henc; cases henc
          | ok sb =>
            rw [hsb] at henc
            simp only [pure, Except.pure, Except.ok.injEq] at henc
            subst henc
            obtain ⟨hmpos, hmdec⟩ := decInverts_reportMetadata .draft07 r.metadata hm mb hmb
            constructor
            · simp only [List.length_append]
              omega
            · intro rest
              simp only [decodeReport, List.nil_append, List.append_assoc, bind, Except.bind,
                pure, Except.pure, hmdec (pb ++ (sb ++ rest)),
                decodeU32Bytes_encodeU32Bytes r.publicShare pb (sb ++ rest) hpb,
                decodeU32Items_encodeU32Items encodeHpkeCiphertext decodeHpkeCiphertext
                  r.encryptedInputShares sb rest hsb hsharesInv, Except.ok.injEq,
                Prod.mk.injEq]
              rw [← htidv]
              exact ⟨rfl, trivial⟩
  | unknown =>
    cases htidv : r.draft02TaskId with
    | some tid => rw [htidv] at htid; cases htid
    | none =>
      rw [htidv] at henc
      cases hmb : encodeReportMetadata .unknown r.metadata with
      | error err => rw [hmb] at henc; cases henc
      | ok mb =>
        rw [hmb] at henc
        cases hpb : encodeU32Bytes r.publicShare with
        | error err => rw [hpb] at henc; cases henc
        | ok pb =>
          rw [hpb] at henc
          cases hsb : encodeU32Items encodeHpkeCiphertext r.encryptedInputShares with
          | error err => rw [hsb] at henc; cases henc
          | ok sb =>
            rw [hsb] at henc
            simp only [pure, Except.pure, Except.ok.injEq] at henc
            subst henc
            obtain ⟨hmpos, hmdec⟩ := decInverts_reportMetadata .unknown r.metadata hm mb hmb
            constructor
            · simp only [List.length_append]
              omega
            · intro rest
              simp only [decodeReport, List.nil_append, List.append_assoc, bind, Except.bind,
                pure, Except.pure, hmdec (pb ++ (sb ++ rest)),
                decodeU32Bytes_encodeU32Bytes r.publicShare pb (sb ++ rest) hpb,
                decodeU32Items_encodeU32Items encodeHpkeCiphertext decodeHpkeCiphertext
                  r.encryptedInputShares sb rest hsb hsharesInv, Except.ok.injEq,
                Prod.mk.injEq]
              rw [← htidv]
              exact ⟨rfl, trivial⟩

theorem decodeInterval_encodeInterval (i : Interval) (r : List Nat)
    (hwf : intervalWf i = true) :
    decodeInterval (encodeInterval i ++ r) = .ok (i, r) := by
  simp only [intervalWf, Bool.and_eq_true, decide_eq_true_eq] at hwf
  simp only [encodeInterval, decodeInterval, List.append_assoc, bind, Except.bind,
    decBE_encBE 8 i.start (encBE 8 i.duration ++ r) (by simpa using hwf.1),
    decBE_encBE 8 i.duration r (by simpa using hwf.2), pure, Except.pure]

theorem decInverts_partBatchSel (sel : PartBatchSel) (hwf : partBatchSelWf sel = true) :
    DecInverts encodePartBatchSel decodePartBatchSel sel := by
  intro bx henc
  cases sel with
  | timeInterval =>
    cases henc
    refine ⟨by simp, fun r => ?_⟩
    simp [decodePartBatchSel, decBE, readBytes, beVal, bind, Except.bind, pure, Except.pure]
  | fixedSizeByBatchId batchId =>
    simp only [partBatchSelWf, decide_eq_true_eq] at hwf
    cases henc
    refine ⟨by simp, fun r => ?_⟩
    have h1 : decBE 1 ((2 :: batchId) ++ r) = .ok (2, batchId ++ r) := by
      simp [decBE, readBytes, beVal, bind, Except.bind, pure, Except.pure]
    simp only [decodePartBatchSel, bind, Except.bind, h1,
      readBytes_append_of_length 32 batchId r hwf, pure, Except.pure]

theorem decInverts_query (v : DapVersion) (q : Query) (hwf : queryWf v q = true) :
    DecInverts (encodeQuery v) (decodeQuery v) q := by
  intro bx henc
  cases q with
  | timeInterval i =>
    simp only [queryWf] at hwf
    cases henc
    refine ⟨by simp, fun r => ?_⟩
    have h1 : decBE 1 ((1 :: encodeInterval i) ++ r) = .ok (1, encodeInterval i ++ r) := by
      simp [decBE, readBytes, beVal, bind, Except.bind, pure, Except.pure]
    simp only [decodeQuery, bind, Except.bind, h1,
      decodeInterval_encodeInterval i r hwf, pure, Except.pure]
  | fixedSizeByBatchId batchId =>
    simp only [queryWf, decide_eq_true_eq] at hwf
    by_cases hv : v = .draft02
    · subst hv
      simp only [encodeQuery, if_true] at henc
      cases henc
      refine ⟨by simp, fun r => ?_⟩
      have h1 : decBE 1 ((2 :: batchId) ++ r) = .ok (2, batchId ++ r) := by
        simp [decBE, readBytes, beVal, bind, Except.bind, pure, Except.pure]
      simp only [decodeQuery, bind, Except.bind, h1, if_true,
        readBytes_append_of_length 32 batchId r hwf, pure, Except.pure]
    · simp only [encodeQuery] at henc
      rw [if_neg hv] at henc
      cases henc
      refine ⟨by simp, fun r => ?_⟩
      have h1 : decBE 1 ((2 :: 0 :: batchId) ++ r) = .ok (2, (0 :: batchId) ++ r) := by
        simp [decBE, readBytes, beVal, bind, Except.bind, pure, Except.pure]
      have h2 : decBE 1 ((0 :: batchId) ++ r) = .ok (0, batchId ++ r) := by
        simp [decBE, readBytes, beVal, bind, Except.bind, pure, Except.pure]
      simp only [decodeQuery, bind, Except.bind, h1, if_neg hv, h2,
        readBytes_append_of_length 32 batchId r hwf, pure, Except.pure]
  | fixedSizeCurrentBatch =>
    simp only [queryWf, decide_eq_true_eq] at hwf
    simp only [encodeQuery] at henc
    rw [if_neg hwf] at henc
    cases henc
    refine ⟨by simp, fun r => ?_⟩
    have h1 : decBE 1 ([2, 1] ++ r) = .ok (2, [1] ++ r) := by
      simp [decBE, readBytes, beVal, bind, Except.bind, pure, Except.pure]
    have h2 : decBE 1 ([1] ++ r) = .ok (1, r) := by
      simp [decBE, readBytes, beVal, bind, Except.bind, pure, Except.pure]
    simp only [decodeQuery, List.cons_append, List.nil_append] at h1 h2 ⊢
    simp only [bind, Except.bind, h1, if_neg hwf, h2, pure, Except.pure]

theorem decInverts_aggregationJobInitReq (v : DapVersion) (q : AggregationJobInitReq)
    (hwf : aggregationJobInitReqWf v q = true) :
    DecInverts (encodeAggregationJobInitReq v) (decodeAggregationJobInitReq v) q := by
  obtain ⟨qtid, qjid, qap, qsel, qshares⟩ := q
  intro bx henc
  simp only [aggregationJobInitReqWf, Bool.and_eq_true] at hwf
  obtain ⟨⟨hids, hsel⟩, hshares⟩ := hwf
  have hsharesInv : ∀ s ∈ qshares, DecInverts (encodeReportShare v) (decodeReportShare v) s :=
    fun s hs => decInverts_reportShare v s (List.all_eq_true.mp hshares s hs)
  simp only [encodeAggregationJobInitReq, bind, Except.bind] at henc
  cases v with
  | draft02 =>
    cases qtid with
    | none => cases qjid <;> cases hids
    | some tid =>
      cases qjid with
      | none => cases hids
      | some jid =>
        simp only [Bool.and_eq_true, decide_eq_true_eq] at hids
        cases hap : encodeU16Bytes qap with
        | error err => rw [hap] at henc; cases henc
        | ok apb =>
          rw [hap] at henc
          cases hsb : encodePartBatchSel qsel with
          | error err => rw [hsb] at henc; cases henc
          | ok selb =>
            rw [hsb] at henc
            cases hrb : encodeU32Items (encodeReportShare .draft02) qshares with
            | error err => rw [hrb] at henc; cases henc
            | ok rsb =>
              rw [hrb] at henc
              simp only [pure, Except.pure, Except.ok.injEq] at henc
              subst henc
              obtain ⟨hselpos, hseldec⟩ := decInverts_partBatchSel qsel hsel selb hsb
              refine ⟨by simp only [List.length_append]; omega, fun r => ?_⟩
              simp only [decodeAggregationJobInitReq, List.append_assoc, bind, Except.bind,
                pure, Except.pure,
                readBytes_append_of_length 32 tid
                  (jid ++ (apb ++ (selb ++ (rsb ++ r)))) hids.1,
                readBytes_append_of_length 32 jid (apb ++ (selb ++ (rsb ++ r))) hids.2,
                decodeU16Bytes_encodeU16Bytes qap apb (selb ++ (rsb ++ r)) hap,
                hseldec (rsb ++ r),
                decodeU32Items_encodeU32Items (encodeReportShare .draft02)
                  (decodeReportShare .draft02) qshares rsb r hrb hsharesInv]
  | draft07 =>
    cases qtid with
    | some tid => cases qjid <;> cases hids
    | none =>
      cases qjid with
      | some jid => cases hids
      | none =>
        cases hap : encodeU32Bytes qap with
        | error err => rw [hap] at henc; cases henc
        | ok apb =>
          rw [hap] at henc
          cases hsb : encodePartBatchSel qsel with
          | error err => rw [hsb] at henc; cases henc
          | ok selb =>
            rw [hsb] at henc
            cases hrb : encodeU32Items (encodeReportShare .draft07) qshares with
            | error err => rw [hrb] at henc; cases henc
            | ok rsb =>
              rw [hrb] at henc
              simp only [pure, Except.pure, Except.ok.injEq] at henc
              subst henc
              obtain ⟨hselpos, hseldec⟩ := decInverts_partBatchSel qsel hsel selb hsb
              refine ⟨by simp only [List.length_append]; omega, fun r => ?_⟩
              simp only [decodeAggregationJobInitReq, List.append_assoc, bind, Except.bind,
                pure, Except.pure,
                decodeU32Bytes_encodeU32Bytes qap apb (selb ++ (rsb ++ r)) hap,
                hseldec (rsb ++ r),
                decodeU32Items_encodeU32Items (encodeReportShare .draft07)
                  (decodeReportShare .draft07) qshares rsb r hrb hsharesInv]
  | unknown => cases henc

/-- C2: for the DAP message types `Report`, `AggregationJobInitReq` and
`Query`, every version `V ∈ {Draft02, Draft07}`, and every message value
that is well formed and consistent with `V`, decoding under `V` the bytes
produced by encoding the message under `V` yields the message back (with the
whole input consumed), and encoding is deterministic: equal messages encode
to equal byte strings. -/
theorem c2_codec_roundtrip (v : DapVersion) (hv : v = .draft02 ∨ v = .draft07) :
    (∀ (r : Report) (bs : List Nat), reportWf v r = true →
      encodeReport v r = .ok bs → decodeReport v bs = .ok (r, [])) ∧
    (∀ (q : AggregationJobInitReq) (bs : List Nat), aggregationJobInitReqWf v q = true →
      encodeAggregationJobInitReq v q = .ok bs →
      decodeAggregationJobInitReq v bs = .ok (q, [])) ∧
    (∀ (m : Query) (bs : List Nat), queryWf v m = true →
      encodeQuery v m = .ok bs → decodeQuery v bs = .ok (m, [])) ∧
    (∀ r1 r2 : Report, r1 = r2 → encodeReport v r1 = encodeReport v r2) := by
  refine ⟨fun r bs hwf henc => ?_, fun q bs hwf henc => ?_, fun m bs hwf henc => ?_,
    fun r1 r2 h => by rw [h]⟩
  · have := ((decInverts_report v r hwf) bs henc).2 []
    simpa using this
  · have := ((decInverts_aggregationJobInitReq v q hwf) bs henc).2 []
    simpa using this
  · have := ((decInverts_query v m hwf) bs henc).2 []
    simpa using this

/-- Witness for C2: the hypotheses of `c2_codec_roundtrip` hold at a concrete
draft07 report and its concrete encoding, and the roundtrip returns it. -/
theorem c2_codec_roundtrip_witness :
    reportWf .draft07 c2WitnessReport = true ∧
    encodeReport .draft07 c2WitnessReport = .ok c2WitnessBytes ∧
    decodeReport .draft07 c2WitnessBytes = .ok (c2WitnessReport, []) :=
  ⟨by decide, by rfl,
    (c2_codec_roundtrip .draft07 (Or.inr rfl)).1 c2WitnessReport c2WitnessBytes
      (by decide) (by rfl)⟩

theorem extensionsCheck_true_iff (seen : List Nat) (exts : List Extension) :
    extensionsCheck seen exts = true ↔
      ((exts.map Extension.typeCode).Nodup ∧ (∀ e ∈ exts, e.isUnhandled = false) ∧
        ∀ c ∈ exts.map Extension.typeCode, c ∉ seen) := by
  induction exts generalizing seen with
  | nil => simp [extensionsCheck]
  | cons e es ih =>
    simp only [extensionsCheck]
    by_cases hseen : e.typeCode ∈ seen
    · simp only [if_pos hseen]
      constructor
      · intro h; cases h
      · rintro ⟨-, -, hnot⟩
        exact absurd hseen (hnot e.typeCode (by simp))
    · simp only [if_neg hseen]
      by_cases hunh : e.isUnhandled = true
      · simp only [hunh, if_true]
        constructor
        · intro h; cases h
        · rintro ⟨-, hall, -⟩
          have := hall e (by simp)
          rw [hunh] at this
          cases this
      · have hunh2 : e.isUnhandled = false := by simpa using hunh
        simp only [hunh2, Bool.false_eq_true, if_false]
        rw [ih (e.typeCode :: seen)]
        constructor
        · rintro ⟨hnd, hall, hnotin⟩
          refine ⟨?_, ?_, ?_⟩
          · simp only [List.map_cons, List.nodup_cons]
            exact ⟨fun hc => (hnotin _ hc (by simp)).elim, hnd⟩
          · intro x hx
            rcases List.mem_cons.mp hx with rfl | hx
            · exact hunh2
            · exact hall x hx
          · intro c hc
            rcases List.mem_map.mp hc with ⟨x, hx, rfl⟩
            rcases List.mem_cons.mp hx with rfl | hx
            · exact hseen
            · exact fun hmem =>
                (hnotin _ (List.mem_map_of_mem Extension.typeCode hx)
                  (List.mem_cons_of_mem _ hmem)).elim
        · rintro ⟨hnd, hall, hnotin⟩
          simp only [List.map_cons, List.nodup_cons] at hnd
          refine ⟨hnd.2, fun x hx => hall x (List.mem_cons_of_mem e hx), ?_⟩
          intro c hc
          rcases List.mem_map.mp hc with ⟨x, hx, rfl⟩
          intro hmem
          rcases List.mem_cons.mp hmem with heq | hmem
          · exact hnd.1 (heq ▸ List.mem_map_of_mem Extension.typeCode hx)
          · exact hnotin _ (List.mem_map_of_mem Extension.typeCode
              (List.mem_cons_of_mem e hx)) hmem

theorem extensionsCheck_false_iff (exts : List Extension) :
    extensionsCheck [] exts = false ↔
      (¬ (exts.map Extension.typeCode).Nodup ∨ ∃ e ∈ exts, e.isUnhandled = true) := by
  rw [← Bool.not_eq_true, extensionsCheck_true_iff]
  simp only [List.not_mem_nil, not_false_iff, implies_true, and_true]
  constructor
  · intro h
    by_cases hnd : (exts.map Extension.typeCode).Nodup
    · right
      by_contra hcon
      push_neg at hcon
      exact h ⟨hnd, fun e he => by simpa using hcon e he⟩
    · exact Or.inl hnd
  · rintro (hnd | ⟨e, he, hunh⟩) ⟨h1, h2⟩
    · exact hnd h1
    · rw [h2 e he] at hunh
      cases hunh

/-- C6: decoding a `ReportMetadata` or a `PlaintextInputShare` fails with
`CodecError::UnexpectedValue` exactly when the structurally decoded extension
list contains two extensions with the same type code or contains an
`Unhandled` extension; otherwise the extension checks pass and the decode
returns the structural result. -/
theorem c6_extension_discipline :
    (∀ (v : DapVersion) (bs : List Nat) (m : ReportMetadata) (rest : List Nat),
      decodeReportMetadataRaw v bs = .ok (m, rest) →
      (decodeReportMetadata v bs = .error .unexpectedValue ↔
        (¬ (m.extensions.map Extension.typeCode).Nodup ∨
          ∃ e ∈ m.extensions, e.isUnhandled = true)) ∧
      ((m.extensions.map Extension.typeCode).Nodup ∧
          (∀ e ∈ m.extensions, e.isUnhandled = false) →
        decodeReportMetadata v bs = .ok (m, rest))) ∧
    (∀ (bs : List Nat) (s : PlaintextInputShare) (rest : List Nat),
      decodePlaintextInputShareRaw bs = .ok (s, rest) →
      (decodePlaintextInputShare bs = .error .unexpectedValue ↔
        (¬ (s.extensions.map Extension.typeCode).Nodup ∨
          ∃ e ∈ s.extensions, e.isUnhandled = true)) ∧
      ((s.extensions.map Extension.typeCode).Nodup ∧
          (∀ e ∈ s.extensions, e.isUnhandled = false) →
        decodePlaintextInputShare bs = .ok (s, rest))) := by
  constructor
  · intro v bs m rest hraw
    simp only [decodeReportMetadata, bind, Except.bind, hraw]
    constructor
    · cases hchk : extensionsCheck [] m.extensions with
      | true =>
        simp only [if_true, pure, Except.pure]
        rw [← extensionsCheck_false_iff]
        constructor
        · intro h; cases h
        · intro h; rw [hchk] at h; cases h
      | false =>
        simp only [Bool.false_eq_true, if_false, throw, throwThe, MonadExceptOf.throw]
        rw [← extensionsCheck_false_iff]
        simp [hchk]
    · intro ⟨hnd, hall⟩
      have : extensionsCheck [] m.extensions = true := by
        rw [extensionsCheck_true_iff]
        exact ⟨hnd, hall, by simp⟩
      simp [this, pure, Except.pure]
  · intro bs s rest hraw
    simp only [decodePlaintextInputShare, bind, Except.bind, hraw]
    constructor
    · cases hchk : extensionsCheck [] s.extensions with
      | true =>
        simp only [if_true, pure, Except.pure]
        rw [← extensionsCheck_false_iff]
        constructor
        · intro h; cases h
        · intro h; rw [hchk] at h; cases h
      | false =>
        simp only [Bool.false_eq_true, if_false, throw, throwThe, MonadExceptOf.throw]
        rw [← extensionsCheck_false_iff]
        simp [hchk]
    · intro ⟨hnd, hall⟩
      have : extensionsCheck [] s.extensions = true := by
        rw [extensionsCheck_true_iff]
        exact ⟨hnd, hall, by simp⟩
      simp [this, pure, Except.pure]

/-- Witness for C6: a concrete draft02 `ReportMetadata` byte string whose
extension list decodes structurally with a duplicate `Taskprov` type code is
rejected with `UnexpectedValue` by the full decoder. -/
theorem c6_extension_discipline_witness :
    decodeReportMetadataRaw .draft02
        ([1, 1, 1, 1, 1, 1, 1, 1, 1, 1, 1, 1, 1, 1, 1, 1] ++
          [0, 0, 0, 0, 0, 0, 0, 5] ++ [0, 8, 255, 0, 0, 0, 255, 0, 0, 0]) =
      .ok (⟨[1, 1, 1, 1, 1, 1, 1, 1, 1, 1, 1, 1, 1, 1, 1, 1], 5,
        [.taskprov [], .taskprov []]⟩, []) ∧
    decodeReportMetadata .draft02
        ([1, 1, 1, 1, 1, 1, 1, 1, 1, 1, 1, 1, 1, 1, 1, 1] ++
          [0, 0, 0, 0, 0, 0, 0, 5] ++ [0, 8, 255, 0, 0, 0, 255, 0, 0, 0]) =
      .error .unexpectedValue := by
  constructor
  · rfl
  · have h := (c6_extension_discipline.1 .draft02
      ([1, 1, 1, 1, 1, 1, 1, 1, 1, 1, 1, 1, 1, 1, 1, 1] ++
        [0, 0, 0, 0, 0, 0, 0, 5] ++ [0, 8, 255, 0, 0, 0, 255, 0, 0, 0])
      ⟨[1, 1, 1, 1, 1, 1, 1, 1, 1, 1, 1, 1, 1, 1, 1, 1], 5,
        [.taskprov [], .taskprov []]⟩ [] (by rfl)).1
    exact h.mpr (Or.inl (by decide))

/-- C7 counterexample: encoding `Query::FixedSizeCurrentBatch` under draft02
panics (the Rust `panic!` is modelled by `EncodeFail.panic`); it does not
reject panic-free with `CodecError::UnexpectedValue`, contrary to the
claim. -/
theorem c7_counterexample :
    encodeQuery .draft02 .fixedSizeCurrentBatch = .error .panic ∧
    encodeReportMetadata .draft07
        ⟨[1, 1, 1, 1, 1, 1, 1, 1, 1, 1, 1, 1, 1, 1, 1, 1], 5, [.taskprov []]⟩ =
      .error .panic := by
  exact ⟨rfl, rfl⟩

/-- C7 (amended): for every version mismatch — `FixedSizeCurrentBatch` under
draft02, or a non-empty extension list on `ReportMetadata` under any version
other than draft02 — the encoder fails loudly by panicking (the `Encode`
interface has no error channel, so no `CodecError` is returned); it never
silently omits the field. -/
theorem c7_version_mismatch_panics :
    encodeQuery .draft02 .fixedSizeCurrentBatch = .error .panic ∧
    (∀ (v : DapVersion) (m : ReportMetadata), v ≠ .draft02 → m.extensions ≠ [] →
      encodeReportMetadata v m = .error .panic) := by
  refine ⟨rfl, fun v m hv hext => ?_⟩
  have hne : m.extensions.isEmpty = false := by
    cases hx : m.extensions with
    | nil => exact absurd hx hext
    | cons a l => rfl
  cases v with
  | draft02 => exact absurd rfl hv
  | draft07 =>
    simp only [encodeReportMetadata, bind, Except.bind, hne, Bool.false_eq_true, if_false]
  | unknown =>
    simp only [encodeReportMetadata, bind, Except.bind, hne, Bool.false_eq_true, if_false]

/-- Witness for C7 (amended): the hypotheses hold at a concrete draft07
metadata with one extension, and the encoder panics there. -/
theorem c7_version_mismatch_panics_witness :
    encodeReportMetadata .draft07
        ⟨[2, 2, 2, 2, 2, 2, 2, 2, 2, 2, 2, 2, 2, 2, 2, 2], 7, [.taskprov [1]]⟩ =
      .error .panic :=
  c7_version_mismatch_panics.2 .draft07
    ⟨[2, 2, 2, 2, 2, 2, 2, 2, 2, 2, 2, 2, 2, 2, 2, 2], 7, [.taskprov [1]]⟩
    (by decide) (by decide)

/-- C8: the Leader's upload handler accepts a report only when its
`encrypted_input_shares` list has exactly two elements (the returned value is
the report handed to `put_report`, so a report with any other count is never
stored); and for any other count — once the preceding version, media-type
and task checks pass — the request is rejected with an
`UnrecognizedMessage` abort. -/
theorem c8_upload_two_shares :
    (∀ (env : UploadEnv) (v : DapVersion) (r out : Report),
      handleUploadReq env v r = .ok out → r.encryptedInputShares.length = 2) ∧
    (∀ (env : UploadEnv) (v : DapVersion) (r : Report) (cfg : TaskCfgLite),
      v ≠ .unknown → env.mediaTypeOk = true → env.taskConfig = some cfg →
      cfg.version = v → r.encryptedInputShares.length ≠ 2 →
      handleUploadReq env v r = .error (.unrecognizedMessage .uploadShareCount)) := by
  constructor
  · intro env v r out h
    simp only [handleUploadReq] at h
    split at h
    · cases h
    · split at h
      · cases h
      · split at h
        · cases h
        · split at h
          · cases h
          · split at h
            · rename_i shares leaderShare other heq
              split at h
              · cases h
              · split at h
                · cases h
                · rw [heq]
                  rfl
            · cases h
  · intro env v r cfg hv hmedia hcfg hver hlen
    simp only [handleUploadReq, hcfg]
    rw [if_neg (by simpa using hv), if_neg (by simp [hmedia]), if_neg (by simp [hver])]
    cases hs : r.encryptedInputShares with
    | nil => rfl
    | cons a l =>
      cases l with
      | nil => rfl
      | cons b l2 =>
        cases l2 with
        | nil => rw [hs] at hlen; simp at hlen
        | cons c l3 => rfl

/-- Witness for C8: a concrete three-ciphertext report, with every preceding
check passing, is rejected with `UnrecognizedMessage`. -/
theorem c8_upload_two_shares_witness :
    handleUploadReq ⟨true, some ⟨.draft07, 100⟩, fun _ => true⟩ .draft07
        ⟨none, ⟨[3, 3, 3, 3, 3, 3, 3, 3, 3, 3, 3, 3, 3, 3, 3, 3], 5, []⟩, [9],
          [⟨1, [], []⟩, ⟨2, [], []⟩, ⟨3, [], []⟩]⟩ =
      .error (.unrecognizedMessage .uploadShareCount) :=
  c8_upload_two_shares.2 ⟨true, some ⟨.draft07, 100⟩, fun _ => true⟩ .draft07
    ⟨none, ⟨[3, 3, 3, 3, 3, 3, 3, 3, 3, 3, 3, 3, 3, 3, 3, 3], 5, []⟩, [9],
      [⟨1, [], []⟩, ⟨2, [], []⟩, ⟨3, [], []⟩]⟩ ⟨.draft07, 100⟩
    (by decide) rfl rfl rfl (by decide)

theorem consumeReport_not_expired
    (hpkeDecrypt : List Nat → List Nat → HpkeCiphertext → Except DecryptFail (List Nat))
    (isLeader : Bool) (taskId : List Nat) (version : DapVersion) (expiration : Nat)
    (metadata : ReportMetadata) (publicShare : List Nat) (ct : HpkeCiphertext)
    (hlt : metadata.time < expiration) :
    consumeReport hpkeDecrypt isLeader taskId version expiration metadata publicShare ct =
        .error () ∨
    (∃ f, consumeReport hpkeDecrypt isLeader taskId version expiration metadata publicShare ct =
        .ok (.rejected metadata f) ∧
      ((∃ info aad, hpkeDecrypt info aad ct = .error (.transition f)) ∨
        f = .unrecognizedMessage)) ∨
    (∃ ps, consumeReport hpkeDecrypt isLeader taskId version expiration metadata publicShare ct =
        .ok (.ready metadata publicShare ps)) := by
  have hbody := consumeReport.eq_def hpkeDecrypt isLeader taskId version expiration metadata
    publicShare ct
  rw [if_neg (by omega)] at hbody
  rw [hbody]
  cases version with
  | unknown => exact Or.inl rfl
  | draft02 =>
    cases hA : encodeReportMetadata .draft02 metadata with
    | error e1 => exact Or.inl rfl
    | ok aadMeta =>
      dsimp only
      cases hB : encodeU32Bytes publicShare with
      | error e2 => exact Or.inl rfl
      | ok aadPs =>
        dsimp only
        cases hD : hpkeDecrypt
            ((if DapVersion.draft02 = DapVersion.draft02 then ctxInputShareDraft02
              else ctxInputShareDraft07) ++ [1, if isLeader then 2 else 3])
            (taskId ++ aadMeta ++ aadPs) ct with
        | error e =>
          cases e with
          | transition f =>
            exact Or.inr (Or.inl ⟨f, rfl, Or.inl ⟨_, _, hD⟩⟩)
          | fatal => exact Or.inl rfl
        | ok encodedInputShare =>
          exact Or.inr (Or.inr ⟨encodedInputShare, rfl⟩)
  | draft07 =>
    cases hA : encodeReportMetadata .draft07 metadata with
    | error e1 => exact Or.inl rfl
    | ok aadMeta =>
      dsimp only
      cases hB : encodeU32Bytes publicShare with
      | error e2 => exact Or.inl rfl
      | ok aadPs =>
        dsimp only
        cases hD : hpkeDecrypt
            ((if DapVersion.draft07 = DapVersion.draft02 then ctxInputShareDraft02
              else ctxInputShareDraft07) ++ [1, if isLeader then 2 else 3])
            (taskId ++ aadMeta ++ aadPs) ct with
        | error e =>
          cases e with
          | transition f =>
            exact Or.inr (Or.inl ⟨f, rfl, Or.inl ⟨_, _, hD⟩⟩)
          | fatal => exact Or.inl rfl
        | ok encodedInputShare =>
          dsimp only
          cases hP : decodePlaintextInputShare encodedInputShare with
          | error e3 =>
            exact Or.inr (Or.inl ⟨.unrecognizedMessage, rfl, Or.inr rfl⟩)
          | ok v =>
            obtain ⟨sh, restv⟩ := v
            cases restv with
            | nil => exact Or.inr (Or.inr ⟨sh.payload, rfl⟩)
            | cons a l =>
              exact Or.inr (Or.inl ⟨.unrecognizedMessage, rfl, Or.inr rfl⟩)

/-- C5: assuming the HPKE decrypter fails only with `HpkeUnknownConfigId` or
`HpkeDecryptError` transition failures, `consume` returns
`Rejected(TaskExpired)` exactly when `metadata.time ≥ expiration`; moreover
the expiration check precedes decryption: for an expired report the result
is `Rejected(TaskExpired)` for every decrypter. -/
theorem c5_task_expired
    (hpkeDecrypt : List Nat → List Nat → HpkeCiphertext → Except DecryptFail (List Nat))
    (hdec : ∀ info aad ct f, hpkeDecrypt info aad ct = .error (.transition f) →
      f = .hpkeUnknownConfigId ∨ f = .hpkeDecryptError)
    (isLeader : Bool) (taskId : List Nat) (version : DapVersion) (expiration : Nat)
    (metadata : ReportMetadata) (publicShare : List Nat) (ct : HpkeCiphertext) :
    (consumeReport hpkeDecrypt isLeader taskId version expiration metadata publicShare ct =
        .ok (.rejected metadata .taskExpired) ↔ expiration ≤ metadata.time) ∧
    (expiration ≤ metadata.time →
      ∀ otherDecrypt : List Nat → List Nat → HpkeCiphertext → Except DecryptFail (List Nat),
        consumeReport otherDecrypt isLeader taskId version expiration metadata publicShare ct =
          .ok (.rejected metadata .taskExpired)) := by
  constructor
  · constructor
    · intro h
      by_contra hlt
      rcases consumeReport_not_expired hpkeDecrypt isLeader taskId version expiration metadata
          publicShare ct (by omega) with herr | ⟨f, hres, hsrc⟩ | ⟨ps, hres⟩
      · rw [h] at herr; cases herr
      · rw [h] at hres
        simp only [Except.ok.injEq, EarlyReportStateConsumed.rejected.injEq] at hres
        rcases hsrc with ⟨info, aad, hD⟩ | rfl
        · rcases hdec info aad ct f hD with rfl | rfl <;> cases hres.2
        · cases hres.2
      · rw [h] at hres; cases hres
    · intro h
      rw [consumeReport.eq_def, if_pos h]
  · intro h otherDecrypt
    rw [consumeReport.eq_def, if_pos h]

/-- Witness for C5: with a decrypter that always reports `HpkeDecryptError`,
a concrete report whose time equals the expiration is rejected with
`TaskExpired`. -/
theorem c5_task_expired_witness :
    consumeReport (fun _ _ _ => .error (.transition .hpkeDecryptError)) true [] .draft07 5
        ⟨[4, 4, 4, 4, 4, 4, 4, 4, 4, 4, 4, 4, 4, 4, 4, 4], 5, []⟩ [] ⟨0, [], []⟩ =
      .ok (.rejected ⟨[4, 4, 4, 4, 4, 4, 4, 4, 4, 4, 4, 4, 4, 4, 4, 4], 5, []⟩ .taskExpired) :=
  (c5_task_expired (fun _ _ _ => .error (.transition .hpkeDecryptError))
    (fun _ _ _ f hf => by
      simp only [Except.error.injEq, DecryptFail.transition.injEq] at hf
      exact Or.inr hf.symm)
    true [] .draft07 5 ⟨[4, 4, 4, 4, 4, 4, 4, 4, 4, 4, 4, 4, 4, 4, 4, 4], 5, []⟩ []
    ⟨0, [], []⟩).1.mpr (by decide)

/-- C10 counterexample: a consumed report that was already rejected
(`TaskExpired`) and whose report ID is recorded as aggregated is *not*
returned as `Rejected(ReportReplayed)` by the initialize handler — the
replay set only covers ready consumed reports, so the original failure
passes through. -/
theorem c10_counterexample :
    reportsProcessedInitialize (fun _ _ _ => (none : Option (Unit × Unit))) [[7]]
        [.rejected ⟨[7], 0, []⟩ .taskExpired] =
      [.rejected ⟨[7], 0, []⟩ .taskExpired] ∧
    ([(.rejected ⟨[7], 0, []⟩ .taskExpired : EarlyReportStateInitialized Unit Unit)] ≠
      [.rejected ⟨[7], 0, []⟩ .reportReplayed]) := by
  exact ⟨rfl, by decide⟩

/-- C10 (amended): the initialize handler performs replay detection at
aggregation-job initialization: every *ready* consumed report whose ID is
recorded as aggregated is returned (positionally) as
`Rejected(ReportReplayed)` without running VDAF prep-init; every consumed
report whose ID is not recorded is processed normally (ready reports are
initialized, rejected ones pass through); one result is returned per input
report. -/
theorem c10_initialize_replay {σ μ : Type}
    (prepInit : List Nat → List Nat → List Nat → Option (σ × μ))
    (recorded : List (List Nat)) (consumed : List EarlyReportStateConsumed) :
    (reportsProcessedInitialize prepInit recorded consumed).length = consumed.length ∧
    (∀ i (hi : i < consumed.length)
        (ho : i < (reportsProcessedInitialize prepInit recorded consumed).length),
      (consumedIsReady (consumed.get ⟨i, hi⟩) = true →
        (consumedMetadata (consumed.get ⟨i, hi⟩)).id ∈ recorded →
        (reportsProcessedInitialize prepInit recorded consumed).get ⟨i, ho⟩ =
          .rejected (consumedMetadata (consumed.get ⟨i, hi⟩)) .reportReplayed) ∧
      ((consumedMetadata (consumed.get ⟨i, hi⟩)).id ∉ recorded →
        (reportsProcessedInitialize prepInit recorded consumed).get ⟨i, ho⟩ =
          initializeReport prepInit (consumed.get ⟨i, hi⟩))) := by
  constructor
  · simp [reportsProcessedInitialize]
  · intro i hi ho
    have hget : (reportsProcessedInitialize prepInit recorded consumed).get ⟨i, ho⟩ =
        (fun c =>
          if (consumedMetadata c).id ∈
              ((consumed.filter consumedIsReady).map
                (fun c => (consumedMetadata c).id)).filter (fun id => id ∈ recorded) then
            EarlyReportStateInitialized.rejected (consumedMetadata c) .reportReplayed
          else initializeReport prepInit c) (consumed.get ⟨i, hi⟩) := by
      simp only [reportsProcessedInitialize]
      simp [List.get_eq_getElem, List.getElem_map]
    constructor
    · intro hready hrec
      rw [hget]
      dsimp only
      have hmem : (consumedMetadata (consumed.get ⟨i, hi⟩)).id ∈
          ((consumed.filter consumedIsReady).map
            (fun c => (consumedMetadata c).id)).filter (fun id => id ∈ recorded) := by
        rw [List.mem_filter]
        refine ⟨List.mem_map_of_mem _ (List.mem_filter.mpr ⟨List.get_mem _ _ _, hready⟩), ?_⟩
        simpa using hrec
      rw [if_pos hmem]
    · intro hrec
      rw [hget]
      dsimp only
      have hmem : (consumedMetadata (consumed.get ⟨i, hi⟩)).id ∉
          ((consumed.filter consumedIsReady).map
            (fun c => (consumedMetadata c).id)).filter (fun id => id ∈ recorded) := by
        intro hmem
        exact hrec (by simpa using (List.mem_filter.mp hmem).2)
      rw [if_neg hmem]

/-- Witness for C10 (amended): in a batch with one recorded ready report and
one fresh ready report, position 0 is rejected as replayed and position 1 is
initialized normally. -/
theorem c10_initialize_replay_witness :
    (reportsProcessedInitialize (fun _ _ _ => some ((), ())) [[7]]
        [.ready ⟨[7], 0, []⟩ [] [], .ready ⟨[8], 0, []⟩ [] []]).get ⟨0, by decide⟩ =
      .rejected ⟨[7], 0, []⟩ .reportReplayed ∧
    (reportsProcessedInitialize (fun _ _ _ => some ((), ())) [[7]]
        [.ready ⟨[7], 0, []⟩ [] [], .ready ⟨[8], 0, []⟩ [] []]).get ⟨1, by decide⟩ =
      initializeReport (fun _ _ _ => some ((), ())) (.ready ⟨[8], 0, []⟩ [] []) := by
  constructor
  · exact ((c10_initialize_replay (fun _ _ _ => some ((), ())) [[7]]
      [.ready ⟨[7], 0, []⟩ [] [], .ready ⟨[8], 0, []⟩ [] []]).2 0 (by decide)
        (by decide)).1 (by decide) (by decide)
  · exact ((c10_initialize_replay (fun _ _ _ => some ((), ())) [[7]]
      [.ready ⟨[7], 0, []⟩ [] [], .ready ⟨[8], 0, []⟩ [] []]).2 1 (by decide)
        (by decide)).2 (by decide)

theorem scanForReport_none {σ : Type} (target : List Nat)
    (rest : List (σ × Nat × List Nat)) (scanned : List (List Nat))
    (h : scanForReport target rest = (scanned, none)) :
    target ∉ rest.map (fun e => e.2.2) := by
  induction rest generalizing scanned with
  | nil => simp
  | cons e es ih =>
    rw [scanForReport] at h
    by_cases he : e.2.2 = target
    · rw [if_pos he] at h
      cases h
    · rw [if_neg he] at h
      rcases hrec : scanForReport target es with ⟨ids, found⟩
      rw [hrec] at h
      simp only [Prod.mk.injEq] at h
      simp only [List.map_cons, List.mem_cons]
      rintro (heq | hmem)
      · exact he heq.symm
      · exact ih ids (by rw [hrec, h.2]) hmem

theorem scanForReport_some {σ : Type} (target : List Nat)
    (rest : List (σ × Nat × List Nat)) (scanned : List (List Nat))
    (entry : σ × Nat × List Nat) (rest2 : List (σ × Nat × List Nat))
    (h : scanForReport target rest = (scanned, some (entry, rest2))) :
    entry.2.2 = target ∧
      ∃ pre, rest = pre ++ entry :: rest2 ∧
        scanned = pre.map (fun e => e.2.2) ++ [target] ∧ pre.map (fun e => e.2.2) ⊆ scanned := by
  induction rest generalizing scanned with
  | nil => cases h
  | cons e es ih =>
    rw [scanForReport] at h
    by_cases he : e.2.2 = target
    · rw [if_pos he] at h
      simp only [Prod.mk.injEq, Option.some.injEq] at h
      obtain ⟨hs, heq, hrest⟩ := h
      subst heq
      subst hrest
      refine ⟨he, [], rfl, ?_, ?_⟩
      · rw [← hs, he]
        simp
      · simp
    · rw [if_neg he] at h
      rcases hrec : scanForReport target es with ⟨ids, found⟩
      rw [hrec] at h
      simp only [Prod.mk.injEq] at h
      obtain ⟨hscanned, hfound⟩ := h
      obtain ⟨htarget, pre, hpre, hids, hsub⟩ := ih ids (by rw [hrec, hfound])
      refine ⟨htarget, e :: pre, by simp [hpre], ?_, ?_⟩
      · rw [← hscanned, hids]
        simp
      · rw [← hscanned]
        simp only [List.map_cons]
        exact List.cons_subset_cons _ (by rw [hids]; exact List.subset_append_left _ _)

theorem contReqLoop_error {σ δ : Type} (prepFin : σ → List Nat → Option δ)
    (isReplay : List Nat → Bool) (sel : PartBatchSel) (timePrecision : Nat)
    (recognized : List (List Nat)) (ts : List Transition) :
    ∀ (processed : List (List Nat)) (rest : List (σ × Nat × List Nat))
      (span : List (SpanEntry δ)) (outs : List Transition) (e : DapAbort),
      contReqLoop prepFin isReplay sel timePrecision recognized ts processed rest span outs =
        .error e →
      e = .unrecognizedMessage .contReqUnrecognizedReport ∨
      e = .unrecognizedMessage .contReqDuplicateReport ∨
      e = .unrecognizedMessage .contReqUnexpectedVar := by
  induction ts with
  | nil =>
    intro processed rest span outs e h
    rw [contReqLoop] at h
    cases h
  | cons leader ls ih =>
    intro processed rest span outs e h
    rw [contReqLoop] at h
    split at h
    · cases h
      exact Or.inl rfl
    · split at h
      · cases h
        exact Or.inr (Or.inl rfl)
      · split at h
        · cases h
        · split at h
          · split at h
            · exact ih _ _ _ _ e h
            · split at h
              · exact ih _ _ _ _ e h
              · exact ih _ _ _ _ e h
          · cases h
            exact Or.inr (Or.inr rfl)

theorem contReqLoop_ok_sublist {σ δ : Type} (prepFin : σ → List Nat → Option δ)
    (isReplay : List Nat → Bool) (sel : PartBatchSel) (timePrecision : Nat)
    (recognized : List (List Nat)) (ts : List Transition) :
    ∀ (processed : List (List Nat)) (rest : List (σ × Nat × List Nat))
      (span : List (SpanEntry δ)) (outs : List Transition)
      (out : List (SpanEntry δ) × List Transition),
      (∀ id, id ∈ recognized → id ∈ processed ∨ id ∈ rest.map (fun e => e.2.2)) →
      contReqLoop prepFin isReplay sel timePrecision recognized ts processed rest span outs =
        .ok out →
      List.Sublist (ts.map (fun t => t.reportId)) (rest.map (fun e => e.2.2)) := by
  induction ts with
  | nil =>
    intro processed rest span outs out hinv h
    simp
  | cons leader ls ih =>
    intro processed rest span outs out hinv h
    rw [contReqLoop] at h
    split at h
    · cases h
    · rename_i hrec0
      split at h
      · cases h
      · rename_i hproc
        have hrecog : leader.reportId ∈ recognized := by
          by_contra hc
          exact hrec0 hc
        split at h
        · rename_i scanned hscan
          have hnone := scanForReport_none leader.reportId rest scanned hscan
          rcases hinv leader.reportId hrecog with hin | hin
          · exact absurd hin hproc
          · exact absurd hin hnone
        · rename_i scanned helperStep helperTime helperReportId rest2 hscan
          obtain ⟨hid, pre, hpre, hids, hsubscan⟩ :=
            scanForReport_some leader.reportId rest scanned
              (helperStep, helperTime, helperReportId) rest2 hscan
          have hinv2 : ∀ id, id ∈ recognized →
              id ∈ processed ++ scanned ∨ id ∈ rest2.map (fun e => e.2.2) := by
            intro id hidm
            rcases hinv id hidm with hq | hq
            · exact Or.inl (List.mem_append_left _ hq)
            · rw [hpre] at hq
              simp only [List.map_append, List.map_cons, List.mem_append, List.mem_cons] at hq
              rcases hq with hq | hq | hq
              · exact Or.inl (List.mem_append_right _ (hsubscan hq))
              · refine Or.inl (List.mem_append_right _ ?_)
                rw [hids]
                simp only [List.mem_append, List.mem_singleton]
                right
                rw [hq]
                exact hid
              · exact Or.inr hq
          have hconc : List.Sublist (ls.map (fun t => t.reportId)) (rest2.map (fun e => e.2.2)) →
              List.Sublist ((leader :: ls).map (fun t => t.reportId))
                (rest.map (fun e => e.2.2)) := by
            intro hsub
            rw [hpre]
            simp only [List.map_cons, List.map_append]
            have h1 : List.Sublist (leader.reportId :: ls.map (fun t => t.reportId))
                (leader.reportId :: rest2.map (fun e => e.2.2)) := hsub.cons₂ _
            have h2 : List.Sublist (leader.reportId :: rest2.map (fun e => e.2.2))
                (pre.map (fun e => e.2.2) ++
                  (helperStep, helperTime, helperReportId).2.2 :: rest2.map (fun e => e.2.2)) := by
              rw [show (helperStep, helperTime, helperReportId).2.2 = leader.reportId from hid]
              exact List.sublist_append_right _ _
            exact h1.trans h2
          split at h
          · split at h
            · exact hconc (ih _ _ _ _ out hinv2 h)
            · split at h
              · exact hconc (ih _ _ _ _ out hinv2 h)
              · exact hconc (ih _ _ _ _ out hinv2 h)
          · cases h

/-- C3 counterexample: a continue request with `round = Some 0` is rejected
with an `UnrecognizedMessage` abort, not the `RoundMismatch` abort the claim
requires for "any other value of the round field". -/
theorem c3_counterexample :
    handleAggJobContReq (fun (_ : Unit) _ => (some 0 : Option Nat)) (fun _ => false)
        .timeInterval 1 [] (some 0) [] =
      .error (.unrecognizedMessage .contReqRoundZero) ∧
    (match handleAggJobContReq (fun (_ : Unit) _ => (some 0 : Option Nat)) (fun _ => false)
        .timeInterval 1 [] (some 0) [] with
      | .error (.roundMismatch _) => true
      | _ => false) = false := by
  exact ⟨rfl, rfl⟩

/-- C3 (amended): the Helper's round validation accepts an absent round field
or round `1` (regardless of version); round `0` is rejected with an
`UnrecognizedMessage` abort; any round `r ≥ 2` is rejected with
`RoundMismatch`; and with an accepted round the request is never rejected
for its round (every abort is an `UnrecognizedMessage` from the transition
loop, none of them the round-zero abort). -/
theorem c3_round_validation {σ δ : Type} (prepFin : σ → List Nat → Option δ)
    (isReplay : List Nat → Bool) (sel : PartBatchSel) (timePrecision : Nat)
    (helperSeq : List (σ × Nat × List Nat)) (transitions : List Transition) :
    (∀ r, handleAggJobContReq prepFin isReplay sel timePrecision helperSeq
        (some (r + 2)) transitions = .error (.roundMismatch (r + 2))) ∧
    (handleAggJobContReq prepFin isReplay sel timePrecision helperSeq (some 0) transitions =
      .error (.unrecognizedMessage .contReqRoundZero)) ∧
    (∀ (round : Option Nat) (e : DapAbort), round = none ∨ round = some 1 →
      handleAggJobContReq prepFin isReplay sel timePrecision helperSeq round transitions =
        .error e →
      ∃ d, e = .unrecognizedMessage d ∧ d ≠ .contReqRoundZero) := by
  refine ⟨fun r => rfl, rfl, fun round e hround h => ?_⟩
  have hloop : contReqLoop prepFin isReplay sel timePrecision
      (helperSeq.map (fun entry => entry.2.2)) transitions [] helperSeq [] [] = .error e := by
    rcases hround with rfl | rfl
    · exact h
    · exact h
  rcases contReqLoop_error prepFin isReplay sel timePrecision
      (helperSeq.map (fun entry => entry.2.2)) transitions [] helperSeq [] [] e hloop with
    rfl | rfl | rfl
  · exact ⟨.contReqUnrecognizedReport, rfl, by decide⟩
  · exact ⟨.contReqDuplicateReport, rfl, by decide⟩
  · exact ⟨.contReqUnexpectedVar, rfl, by decide⟩

/-- Witness for C3 (amended): round 5 on a concrete request is rejected with
`RoundMismatch`, and the accepted-round clause applies at a concrete abort. -/
theorem c3_round_validation_witness :
    handleAggJobContReq (fun (_ : Unit) _ => (some 0 : Option Nat)) (fun _ => false)
        .timeInterval 1 [] (some 5) [] = .error (.roundMismatch 5) :=
  (c3_round_validation (fun (_ : Unit) _ => (some 0 : Option Nat)) (fun _ => false)
    .timeInterval 1 [] []).1 3

/-- C9 counterexample: with two recognized, duplicate-free report IDs sent in
the opposite order of the Helper's retained sequence, the Helper *aborts*
with `UnrecognizedMessage` (the skipped helper entry was recorded as
processed, so the out-of-order transition trips the duplicate check); it
does not silently drop transitions as the claim states. -/
theorem c9_counterexample :
    handleAggJobContReq (fun (_ : Unit) _ => (some 0 : Option Nat)) (fun _ => false)
        .timeInterval 1 [((), 0, [0]), ((), 0, [1])] (some 1)
        [⟨[1], .continued []⟩, ⟨[0], .continued []⟩] =
      .error (.unrecognizedMessage .contReqDuplicateReport) := by
  rfl

/-- C9 (amended): helper entries skipped while scanning forward produce no
output transition, but when the Leader's transitions do not form an
in-order subsequence of the Helper's retained report sequence the Helper
aborts with an `UnrecognizedMessage` abort (it never silently ignores them):
with an accepted round, a successful return is only possible when the
transitions' report IDs are an in-order subsequence of the Helper's
sequence. -/
theorem c9_out_of_order_aborts {σ δ : Type} (prepFin : σ → List Nat → Option δ)
    (isReplay : List Nat → Bool) (sel : PartBatchSel) (timePrecision : Nat)
    (helperSeq : List (σ × Nat × List Nat)) (round : Option Nat)
    (transitions : List Transition) (hround : round = none ∨ round = some 1)
    (hnosub : ¬ List.Sublist (transitions.map (fun t => t.reportId))
      (helperSeq.map (fun entry => entry.2.2))) :
    ∃ d, handleAggJobContReq prepFin isReplay sel timePrecision helperSeq round transitions =
      .error (.unrecognizedMessage d) := by
  have hred : handleAggJobContReq prepFin isReplay sel timePrecision helperSeq round
      transitions = contReqLoop prepFin isReplay sel timePrecision
        (helperSeq.map (fun entry => entry.2.2)) transitions [] helperSeq [] [] := by
    rcases hround with rfl | rfl
    · rfl
    · rfl
  rw [hred]
  cases hres : contReqLoop prepFin isReplay sel timePrecision
      (helperSeq.map (fun entry => entry.2.2)) transitions [] helperSeq [] [] with
  | ok out =>
    exact absurd
      (contReqLoop_ok_sublist prepFin isReplay sel timePrecision
        (helperSeq.map (fun entry => entry.2.2)) transitions [] helperSeq [] [] out
        (fun id hid => Or.inr hid) hres)
      hnosub
  | error e =>
    rcases contReqLoop_error prepFin isReplay sel timePrecision
        (helperSeq.map (fun entry => entry.2.2)) transitions [] helperSeq [] [] e hres with
      rfl | rfl | rfl
    · exact ⟨.contReqUnrecognizedReport, rfl⟩
    · exact ⟨.contReqDuplicateReport, rfl⟩
    · exact ⟨.contReqUnexpectedVar, rfl⟩

/-- Witness for C9 (amended): the hypotheses hold at the concrete reversed
two-report request, and the theorem yields the abort observed there. -/
theorem c9_out_of_order_aborts_witness :
    ∃ d, handleAggJobContReq (fun (_ : Unit) _ => (some 0 : Option Nat)) (fun _ => false)
        .timeInterval 1 [((), 0, [0]), ((), 0, [1])] (some 1)
        [⟨[1], .continued []⟩, ⟨[0], .continued []⟩] =
      .error (.unrecognizedMessage d) :=
  c9_out_of_order_aborts (fun (_ : Unit) _ => (some 0 : Option Nat)) (fun _ => false)
    .timeInterval 1 [((), 0, [0]), ((), 0, [1])] (some 1)
    [⟨[1], .continued []⟩, ⟨[0], .continued []⟩] (Or.inr rfl) (by decide)

theorem leaderRespLoop_error {σ μ δ : Type} (prepFF : σ → μ → List Nat → Option (δ × List Nat))
    (resp : List Transition) :
    ∀ (seq : List (σ × μ × Nat × List Nat)) (e : DapAbort),
      leaderRespLoop prepFF resp seq = .error e →
      e = .unrecognizedMessage .respReportOutOfOrder ∨
      e = .unrecognizedMessage .respUnexpectedFinished := by
  induction resp with
  | nil =>
    intro seq e h
    rw [leaderRespLoop] at h
    cases h
  | cons helper hs ih =>
    intro seq e h
    cases seq with
    | nil =>
      rw [leaderRespLoop] at h
      cases h
    | cons s ls =>
      obtain ⟨leaderStep, leaderMessage, leaderTime, leaderReportId⟩ := s
      rw [leaderRespLoop] at h
      split at h
      · cases h
        exact Or.inl rfl
      · split at h
        · exact ih _ _ h
        · cases h
          exact Or.inr rfl
        · split at h
          · cases hr : leaderRespLoop prepFF hs ls with
            | error e2 =>
              rw [hr, except_bind_err] at h
              cases h
              exact ih _ _ hr
            | ok out2 =>
              rw [hr, except_bind_ok] at h
              obtain ⟨sts, sq⟩ := out2
              simp only [pure, Except.pure] at h
              cases h
          · exact ih _ _ h

theorem leaderRespLoop_ok {σ μ δ : Type} (prepFF : σ → μ → List Nat → Option (δ × List Nat))
    (resp : List Transition) :
    ∀ (seq : List (σ × μ × Nat × List Nat))
      (out : List ((List Nat × Nat × δ) × List Nat) × List Transition),
      leaderRespLoop prepFF resp seq = .ok out →
      ∀ i (hi : i < resp.length) (hj : i < seq.length),
        (resp.get ⟨i, hi⟩).reportId = (seq.get ⟨i, hj⟩).2.2.2 ∧
        (resp.get ⟨i, hi⟩).var ≠ .finished := by
  induction resp with
  | nil =>
    intro seq out h i hi hj
    simp at hi
  | cons helper hs ih =>
    intro seq out h i hi hj
    cases seq with
    | nil => simp at hj
    | cons s ls =>
      obtain ⟨leaderStep, leaderMessage, leaderTime, leaderReportId⟩ := s
      rw [leaderRespLoop] at h
      split at h
      · cases h
      · rename_i hne
        have heq : helper.reportId = leaderReportId := by
          by_contra hc
          exact hne hc
        split at h
        · rename_i hfail
          cases i with
          | zero =>
            refine ⟨heq, fun hcon => ?_⟩
            have hvar : helper.var = .finished := hcon
            rw [hfail] at hvar
            cases hvar
          | succ n =>
            exact ih ls out h n (Nat.lt_of_succ_lt_succ hi) (Nat.lt_of_succ_lt_succ hj)
        · cases h
        · rename_i msg hcont
          split at h
          · cases hr : leaderRespLoop prepFF hs ls with
            | error e2 => rw [hr, except_bind_err] at h; cases h
            | ok out2 =>
              cases i with
              | zero =>
                refine ⟨heq, fun hcon => ?_⟩
                have hvar : helper.var = .finished := hcon
                rw [hcont] at hvar
                cases hvar
              | succ n =>
                exact ih ls out2 hr n (Nat.lt_of_succ_lt_succ hi) (Nat.lt_of_succ_lt_succ hj)
          · cases i with
            | zero =>
              refine ⟨heq, fun hcon => ?_⟩
              have hvar : helper.var = .finished := hcon
              rw [hcont] at hvar
              cases hvar
            | succ n =>
              exact ih ls out h n (Nat.lt_of_succ_lt_succ hi) (Nat.lt_of_succ_lt_succ hj)

theorem handleAggJobResp_ok_loop {σ μ δ : Type}
    (prepFF : σ → μ → List Nat → Option (δ × List Nat)) (version : DapVersion)
    (stateSeq : List (σ × μ × Nat × List Nat)) (resp : List Transition)
    (out : LeaderRespOut δ) (h : handleAggJobResp prepFF version stateSeq resp = .ok out) :
    resp.length = stateSeq.length ∧
      ∃ out2, leaderRespLoop prepFF resp stateSeq = .ok out2 := by
  simp only [handleAggJobResp, bind, Except.bind] at h
  split at h
  · cases h
  · rename_i hlen
    refine ⟨by omega, ?_⟩
    cases hr : leaderRespLoop prepFF resp stateSeq with
    | error e2 => rw [hr] at h; cases h
    | ok out2 => exact ⟨out2, rfl⟩

theorem handleAggJobResp_error {σ μ δ : Type}
    (prepFF : σ → μ → List Nat → Option (δ × List Nat)) (version : DapVersion)
    (stateSeq : List (σ × μ × Nat × List Nat)) (resp : List Transition) (e : DapAbort)
    (h : handleAggJobResp prepFF version stateSeq resp = .error e) :
    ∃ d, e = .unrecognizedMessage d := by
  simp only [handleAggJobResp, bind, Except.bind] at h
  split at h
  · cases h
    exact ⟨.respLenMismatch, rfl⟩
  · cases hr : leaderRespLoop prepFF resp stateSeq with
    | error e2 =>
      have hclass := leaderRespLoop_error prepFF resp stateSeq e2 hr
      rw [hr] at h
      dsimp only at h
      cases h
      rcases hclass with rfl | rfl
      · exact ⟨.respReportOutOfOrder, rfl⟩
      · exact ⟨.respUnexpectedFinished, rfl⟩
    | ok out2 =>
      rw [hr] at h
      obtain ⟨sts, sq⟩ := out2
      dsimp only at h
      split at h
      · cases h
      · cases h

theorem leaderFinalLoop_error {δ : Type} (sel : PartBatchSel) (timePrecision : Nat)
    (resp : List Transition) :
    ∀ (uncommitted : List ((List Nat × Nat × δ) × List Nat)) (span : List (SpanEntry δ))
      (e : DapAbort),
      leaderFinalLoop sel timePrecision resp uncommitted span = .error e →
      e = .unrecognizedMessage .finalReportOutOfOrder ∨
      e = .unrecognizedMessage .finalUnexpectedContinued := by
  induction resp with
  | nil =>
    intro uncommitted span e h
    rw [leaderFinalLoop] at h
    cases h
  | cons helper hs ih =>
    intro uncommitted span e h
    cases uncommitted with
    | nil =>
      rw [leaderFinalLoop] at h
      cases h
    | cons u ls =>
      obtain ⟨outShare, leaderReportId⟩ := u
      rw [leaderFinalLoop] at h
      split at h
      · cases h
        exact Or.inl rfl
      · split at h
        · cases h
          exact Or.inr rfl
        · exact ih _ _ _ h
        · exact ih _ _ _ h

theorem leaderFinalLoop_ok {δ : Type} (sel : PartBatchSel) (timePrecision : Nat)
    (resp : List Transition) :
    ∀ (uncommitted : List ((List Nat × Nat × δ) × List Nat)) (span : List (SpanEntry δ))
      (out : List (SpanEntry δ)),
      leaderFinalLoop sel timePrecision resp uncommitted span = .ok out →
      ∀ i (hi : i < resp.length) (hj : i < uncommitted.length),
        (resp.get ⟨i, hi⟩).reportId = (uncommitted.get ⟨i, hj⟩).2 ∧
        ∀ msg, (resp.get ⟨i, hi⟩).var ≠ .continued msg := by
  induction resp with
  | nil =>
    intro uncommitted span out h i hi hj
    simp at hi
  | cons helper hs ih =>
    intro uncommitted span out h i hi hj
    cases uncommitted with
    | nil => simp at hj
    | cons u ls =>
      obtain ⟨outShare, leaderReportId⟩ := u
      rw [leaderFinalLoop] at h
      split at h
      · cases h
      · rename_i hne
        have heq : helper.reportId = leaderReportId := by
          by_contra hc
          exact hne hc
        split at h
        · cases h
        · rename_i hfail
          cases i with
          | zero =>
            refine ⟨heq, fun msg hcon => ?_⟩
            have hvar : helper.var = .continued msg := hcon
            rw [hfail] at hvar
            cases hvar
          | succ n =>
            exact ih ls span out h n (Nat.lt_of_succ_lt_succ hi) (Nat.lt_of_succ_lt_succ hj)
        · rename_i hfin
          cases i with
          | zero =>
            refine ⟨heq, fun msg hcon => ?_⟩
            have hvar : helper.var = .continued msg := hcon
            rw [hfin] at hvar
            cases hvar
          | succ n =>
            exact ih ls _ out h n (Nat.lt_of_succ_lt_succ hi) (Nat.lt_of_succ_lt_succ hj)

theorem handleFinalAggJobResp_ok_loop {δ : Type} (sel : PartBatchSel) (timePrecision : Nat)
    (uncommitted : List ((List Nat × Nat × δ) × List Nat)) (resp : List Transition)
    (out : List (SpanEntry δ))
    (h : handleFinalAggJobResp sel timePrecision uncommitted resp = .ok out) :
    resp.length = uncommitted.length ∧
      leaderFinalLoop sel timePrecision resp uncommitted [] = .ok out := by
  simp only [handleFinalAggJobResp, bind, Except.bind] at h
  split at h
  · cases h
  · rename_i hlen
    exact ⟨by omega, h⟩

/-- C4: for both Leader-side handlers of a Helper `AggregationJobResp` — the
continue-handling stage (`handle_agg_job_resp`) and the final stage
(`handle_final_agg_job_resp`) — a transition count differing from the
Leader's retained sequence, a report ID differing positionally, a
`Finished` transition at the continue stage, or a `Continued` transition at
the final stage, each causes an `UnrecognizedMessage` abort. -/
theorem c4_leader_resp_validation {σ μ δ : Type}
    (prepFF : σ → μ → List Nat → Option (δ × List Nat)) (version : DapVersion)
    (stateSeq : List (σ × μ × Nat × List Nat)) (resp : List Transition)
    (sel : PartBatchSel) (timePrecision : Nat)
    (uncommitted : List ((List Nat × Nat × δ) × List Nat)) (finalResp : List Transition) :
    (resp.length ≠ stateSeq.length →
      handleAggJobResp prepFF version stateSeq resp =
        .error (.unrecognizedMessage .respLenMismatch)) ∧
    ((∃ i, ∃ (hi : i < resp.length) (hj : i < stateSeq.length),
        (resp.get ⟨i, hi⟩).reportId ≠ (stateSeq.get ⟨i, hj⟩).2.2.2 ∨
        (resp.get ⟨i, hi⟩).var = .finished) →
      ∃ d, handleAggJobResp prepFF version stateSeq resp =
        .error (.unrecognizedMessage d)) ∧
    (finalResp.length ≠ uncommitted.length →
      handleFinalAggJobResp sel timePrecision uncommitted finalResp =
        .error (.unrecognizedMessage .finalLenMismatch)) ∧
    ((∃ i, ∃ (hi : i < finalResp.length) (hj : i < uncommitted.length),
        (finalResp.get ⟨i, hi⟩).reportId ≠ (uncommitted.get ⟨i, hj⟩).2 ∨
        ∃ msg, (finalResp.get ⟨i, hi⟩).var = .continued msg) →
      ∃ d, handleFinalAggJobResp sel timePrecision uncommitted finalResp =
        .error (.unrecognizedMessage d)) := by
  refine ⟨fun hlen => ?_, fun hbad => ?_, fun hlen => ?_, fun hbad => ?_⟩
  · simp only [handleAggJobResp, bind, Except.bind]
    rw [if_pos hlen]
    rfl
  · cases hres : handleAggJobResp prepFF version stateSeq resp with
    | ok out =>
      obtain ⟨-, out2, hloop⟩ := handleAggJobResp_ok_loop prepFF version stateSeq resp out hres
      obtain ⟨i, hi, hj, hbad⟩ := hbad
      obtain ⟨hid, hvar⟩ := leaderRespLoop_ok prepFF resp stateSeq out2 hloop i hi hj
      rcases hbad with hbad | hbad
      · exact absurd hid hbad
      · exact absurd hbad hvar
    | error e =>
      obtain ⟨d, rfl⟩ := handleAggJobResp_error prepFF version stateSeq resp e hres
      exact ⟨d, rfl⟩
  · simp only [handleFinalAggJobResp, bind, Except.bind]
    rw [if_pos hlen]
    rfl
  · cases hres : handleFinalAggJobResp sel timePrecision uncommitted finalResp with
    | ok out =>
      obtain ⟨-, hloop⟩ :=
        handleFinalAggJobResp_ok_loop sel timePrecision uncommitted finalResp out hres
      obtain ⟨i, hi, hj, hbad⟩ := hbad
      obtain ⟨hid, hvar⟩ := leaderFinalLoop_ok sel timePrecision finalResp uncommitted [] out
        hloop i hi hj
      rcases hbad with hbad | ⟨msg, hbad⟩
      · exact absurd hid hbad
      · exact absurd hbad (hvar msg)
    | error e =>
      simp only [handleFinalAggJobResp, bind, Except.bind] at hres
      split at hres
      · cases hres
        exact ⟨.finalLenMismatch, rfl⟩
      · rcases leaderFinalLoop_error sel timePrecision finalResp uncommitted [] e hres with
          rfl | rfl
        · exact ⟨.finalReportOutOfOrder, rfl⟩
        · exact ⟨.finalUnexpectedContinued, rfl⟩

/-- Witness for C4: a concrete one-transition response whose report ID
differs from the Leader's retained report ID is rejected with an
`UnrecognizedMessage` abort. -/
theorem c4_leader_resp_validation_witness :
    ∃ d, handleAggJobResp (fun (_ : Unit) (_ : Unit) _ => (some (0, [1]) : Option (Nat × List Nat)))
        .draft07 [((), (), 0, [0])] [⟨[9], .continued []⟩] =
      .error (.unrecognizedMessage d) :=
  (c4_leader_resp_validation
      (fun (_ : Unit) (_ : Unit) _ => (some (0, [1]) : Option (Nat × List Nat))) .draft07
      [((), (), 0, [0])] [⟨[9], .continued []⟩] .timeInterval 1 [] []).2.1
    ⟨0, by decide, by decide, Or.inl (by decide)⟩

theorem markAggregated_replay_none_recorded (recorded ids : List (List Nat))
    (h : ∃ id ∈ ids, id ∈ recorded) :
    (markAggregated recorded ids).1 = recorded ∧ (markAggregated recorded ids).2 ≠ [] := by
  obtain ⟨id, hin, hrec⟩ := h
  have hfil : id ∈ ids.filter (fun id => id ∈ recorded) :=
    List.mem_filter.mpr ⟨hin, by simpa using hrec⟩
  have hne : ¬ (ids.filter (fun id => id ∈ recorded)).isEmpty = true := by
    intro hcon
    rw [List.isEmpty_iff.mp hcon] at hfil
    cases hfil
  rw [markAggregated, if_neg hne]
  refine ⟨rfl, fun hcon => ?_⟩
  have hl : ids.filter (fun id => id ∈ recorded) = [] := hcon
  rw [hl] at hfil
  cases hfil

theorem markAggregated_no_replay (recorded ids : List (List Nat))
    (h : (markAggregated recorded ids).2 = []) :
    ∀ id ∈ ids, id ∈ (markAggregated recorded ids).1 := by
  intro id hin
  by_cases hemp : (ids.filter (fun id => id ∈ recorded)).isEmpty
  · rw [markAggregated, if_pos hemp]
    exact List.mem_append_right _ hin
  · rw [markAggregated, if_neg hemp] at h
    exact absurd (List.isEmpty_iff.mpr h) hemp

/-- C1: the commit of a span by `try_put_agg_share_span` is all-or-nothing
toward the aggregate store: (a) when the replay set returned by the
mark-aggregated calls is empty, every aggregate-store entry named by the
span is merged with the span's delta and every report ID of the span is
recorded as aggregated in its shard; (b) when the replay set is non-empty,
it is returned to the caller and no aggregate-store entry changes; and
(c) within one mark-aggregated call, if any submitted report ID is already
recorded, none of the submitted IDs is recorded. -/
theorem c1_commit_atomicity {δ : Type} (shardName : List Nat → Nat → Nat)
    (aggName : Bucket → Nat) (merge : δ → δ → δ) (st : WorkerStore δ)
    (span : List (Bucket × δ × List (List Nat × Nat))) :
    ((tryPutAggShareSpan shardName aggName merge st span).2 = none →
      (∀ n, (tryPutAggShareSpan shardName aggName merge st span).1.aggStore n =
        match spanDeltaFor aggName merge span n with
        | some delta => merge (st.aggStore n) delta
        | none => st.aggStore n) ∧
      (∀ e ∈ span, ∀ p ∈ e.2.2,
        p.1 ∈ (tryPutAggShareSpan shardName aggName merge st span).1.processed
          (shardName p.1 p.2))) ∧
    (∀ reps, (tryPutAggShareSpan shardName aggName merge st span).2 = some reps →
      reps ≠ [] ∧
      ∀ n, (tryPutAggShareSpan shardName aggName merge st span).1.aggStore n =
        st.aggStore n) ∧
    (∀ recorded ids, (∃ id ∈ ids, id ∈ recorded) →
      (markAggregated recorded ids).1 = recorded ∧ (markAggregated recorded ids).2 ≠ []) := by
  by_cases hemp : (tryPutReplayed shardName st span).isEmpty
  · refine ⟨fun _ => ⟨fun n => ?_, fun e he p hp => ?_⟩,
      fun reps hreps => ?_, markAggregated_replay_none_recorded⟩
    · rw [tryPutAggShareSpan, if_pos hemp]
    · rw [tryPutAggShareSpan, if_pos hemp]
      have hshard : shardName p.1 p.2 ∈
          ((span.flatMap (fun e => e.2.2)).map (fun r => shardName r.1 r.2)).dedup := by
        rw [List.mem_dedup]
        exact List.mem_map_of_mem _ (List.mem_flatMap.mpr ⟨e, he, hp⟩)
      have hzero : (markAggregated (st.processed (shardName p.1 p.2))
          (idsForShard shardName span (shardName p.1 p.2))).2 = [] := by
        have hnil : tryPutReplayed shardName st span = [] := List.isEmpty_iff.mp hemp
        rw [tryPutReplayed] at hnil
        have := List.flatMap_eq_nil_iff.mp hnil _ hshard
        exact this
      have hidin : p.1 ∈ idsForShard shardName span (shardName p.1 p.2) := by
        rw [idsForShard]
        refine List.mem_map_of_mem _ (List.mem_filter.mpr ?_)
        exact ⟨List.mem_flatMap.mpr ⟨e, he, hp⟩, by simp⟩
      exact markAggregated_no_replay _ _ hzero p.1 hidin
    · rw [tryPutAggShareSpan, if_pos hemp] at hreps
      simp at hreps
  · refine ⟨fun hnone => ?_, fun reps hreps => ?_, markAggregated_replay_none_recorded⟩
    · rw [tryPutAggShareSpan, if_neg hemp] at hnone
      simp at hnone
    · rw [tryPutAggShareSpan, if_neg hemp] at hreps ⊢
      dsimp only at hreps
      rw [Option.some.injEq] at hreps
      refine ⟨?_, fun n => rfl⟩
      rw [← hreps]
      intro hcon
      rw [hcon] at hemp
      exact hemp rfl

/-- Witness for C1: with one shard already holding report ID `[7]`, a
concrete one-bucket span containing `[7]` commits nothing: the replay set
is non-empty and the aggregate store is unchanged; and the mark-aggregated
atomicity clause applies to the concrete call. -/
theorem c1_commit_atomicity_witness :
    (∃ reps,
      (tryPutAggShareSpan (fun _ _ => 0) (fun _ => 0) (fun a b => a + b)
        ⟨fun _ => [[7]], fun _ => (0 : Nat)⟩
        [(.fixedSize [1], 5, [([7], 3)])]).2 = some reps ∧ reps ≠ [] ∧
      ∀ n, (tryPutAggShareSpan (fun _ _ => 0) (fun _ => 0) (fun a b => a + b)
        ⟨fun _ => [[7]], fun _ => (0 : Nat)⟩
        [(.fixedSize [1], 5, [([7], 3)])]).1.aggStore n = 0) ∧
    (markAggregated [[7]] [[7], [8]]).1 = [[7]] := by
  constructor
  · refine ⟨[[7]], by rfl, ?_⟩
    have h := ((c1_commit_atomicity (fun _ _ => 0) (fun _ => 0) (fun a b => a + b)
      ⟨fun _ => [[7]], fun _ => (0 : Nat)⟩
      [(.fixedSize [1], 5, [([7], 3)])]).2.1 [[7]] (by rfl))
    exact ⟨h.1, h.2⟩
  · exact ((c1_commit_atomicity (fun _ _ => 0) (fun _ => 0) (fun a b => a + b)
      ⟨fun _ => [[7]], fun _ => (0 : Nat)⟩ []).2.2 [[7]] [[7], [8]]
      ⟨[7], by decide, by decide⟩).1

end Daphne
